import Mathlib

/-!
Verification of the session-lifecycle and credential-persistence core of a
multi-tenant WhatsApp connector.  The definitions below are a shallow
embedding of the TypeScript source: the `SessionManager` class (in-memory
session table, decryption-failure monitor, reconnect and logout policy,
message dedup pipeline) and the `useMongoDBAuthState` credential store.
Machine behaviour that the source delegates to the runtime (JSON
serialization with the library's Buffer replacer/reviver, base64 encoding,
`setTimeout`-based expiry of dedup entries) is embedded explicitly so that
the stated properties are about executable definitions.
-/

namespace WaCore

/-- Character-list test that the first list is an initial segment of the
second; model of `String.startsWith` and of the `^...` anchor of the
key-purge regular expression in the source. -/
def charsBeginWith : List Char → List Char → Bool
  | [], _ => true
  | _ :: _, [] => false
  | a :: as, b :: bs => a == b && charsBeginWith as bs

/-- `strBegins p s` models `s.startsWith(p)`. -/
def strBegins (p s : String) : Bool :=
  charsBeginWith p.data s.data

/-- Character-list test that the first list occurs contiguously inside the
second; model of `String.prototype.includes`. -/
def charsHave (n : List Char) : List Char → Bool
  | [] => charsBeginWith n []
  | c :: rest => charsBeginWith n (c :: rest) || charsHave n rest

/-- `strHasSub n h` models `h.includes(n)`. -/
def strHasSub (n h : String) : Bool :=
  charsHave n.data h.data

/-- `strEnds p s` models `s.endsWith(p)`. -/
def strEnds (p s : String) : Bool :=
  charsBeginWith p.data.reverse s.data.reverse

/-- A string is blank when every character is whitespace; models the guard
`!text.trim()` of the message handler (the common whitespace characters). -/
def strBlank (s : String) : Bool :=
  s.data.all (fun c => c == ' ' || c == '\t' || c == '\n' || c == '\r')

/-! ### Base64

`useMongoDBAuthState` serializes credential values with the protocol
library's `BufferJSON.replacer`, which stores the bytes of an embedded
`Buffer` as a base64 string; `BufferJSON.reviver` decodes that string back
into a `Buffer`.  The codec is embedded here over byte lists. -/

/-- The 64-character base64 alphabet, in index order. -/
def b64Alphabet : List Char :=
  ['A', 'B', 'C', 'D', 'E', 'F', 'G', 'H', 'I', 'J', 'K', 'L', 'M',
   'N', 'O', 'P', 'Q', 'R', 'S', 'T', 'U', 'V', 'W', 'X', 'Y', 'Z',
   'a', 'b', 'c', 'd', 'e', 'f', 'g', 'h', 'i', 'j', 'k', 'l', 'm',
   'n', 'o', 'p', 'q', 'r', 's', 't', 'u', 'v', 'w', 'x', 'y', 'z',
   '0', '1', '2', '3', '4', '5', '6', '7', '8', '9', '+', '/']

/-- The alphabet character of a 6-bit value. -/
def b64Char (n : Nat) : Char :=
  b64Alphabet.getD n '='

/-- Scan for a character in a list, returning its position offset by `i`. -/
def b64IndexAux (c : Char) : List Char → Nat → Option Nat
  | [], _ => none
  | x :: xs, i => if x == c then some i else b64IndexAux c xs (i + 1)

/-- The 6-bit value of an alphabet character. -/
def b64Index (c : Char) : Option Nat :=
  b64IndexAux c b64Alphabet 0

/-- Encode a byte list as base64 characters, three bytes per four
characters, padded with `=`. -/
def b64EncodeChars : List Nat → List Char
  | [] => []
  | [a] => [b64Char (a / 4), b64Char (a % 4 * 16), '=', '=']
  | [a, b] => [b64Char (a / 4), b64Char (a % 4 * 16 + b / 16), b64Char (b % 16 * 4), '=']
  | a :: b :: c :: rest =>
      b64Char (a / 4) :: b64Char (a % 4 * 16 + b / 16) ::
        b64Char (b % 16 * 4 + c / 64) :: b64Char (c % 64) :: b64EncodeChars rest

/-- Decode base64 characters back into bytes. -/
def b64DecodeChars : List Char → Option (List Nat)
  | [] => some []
  | c1 :: c2 :: c3 :: c4 :: rest =>
      (b64Index c1).bind fun n1 =>
      (b64Index c2).bind fun n2 =>
      if c3 = '=' then
        if c4 = '=' ∧ rest = [] then some [n1 * 4 + n2 / 16] else none
      else
        (b64Index c3).bind fun n3 =>
        if c4 = '=' then
          if rest = [] then
            some [n1 * 4 + n2 / 16, n2 % 16 * 16 + n3 / 4]
          else none
        else
          (b64Index c4).bind fun n4 =>
          (b64DecodeChars rest).bind fun bs =>
          some ((n1 * 4 + n2 / 16) :: (n2 % 16 * 16 + n3 / 4) ::
            (n3 % 4 * 64 + n4) :: bs)
  | _ => none

/-- `b64Encode bs` is the base64 string of the byte list `bs`. -/
def b64Encode (bs : List Nat) : String :=
  String.mk (b64EncodeChars bs)

/-- `b64Decode s` recovers the byte list of a base64 string. -/
def b64Decode (s : String) : Option (List Nat) :=
  b64DecodeChars s.data

theorem b64Index_b64Char : ∀ n < 64, b64Index (b64Char n) = some n := by decide

theorem b64Char_ne_pad : ∀ n < 64, ¬ b64Char n = '=' := by decide

theorem b64_roundtrip_chars :
    ∀ bs : List Nat, (∀ x ∈ bs, x < 256) →
      b64DecodeChars (b64EncodeChars bs) = some bs
  | [], _ => by simp [b64EncodeChars, b64DecodeChars]
  | [a], h => by
      have ha : a < 256 := h a (by simp)
      have h1 := b64Index_b64Char (a / 4) (by omega)
      have h2 := b64Index_b64Char (a % 4 * 16) (by omega)
      simp [b64EncodeChars, b64DecodeChars, h1, h2]
      omega
  | [a, b], h => by
      have ha : a < 256 := h a (by simp)
      have hb : b < 256 := h b (by simp)
      have h1 := b64Index_b64Char (a / 4) (by omega)
      have h2 := b64Index_b64Char (a % 4 * 16 + b / 16) (by omega)
      have h3 := b64Index_b64Char (b % 16 * 4) (by omega)
      have hn3 := b64Char_ne_pad (b % 16 * 4) (by omega)
      simp [b64EncodeChars, b64DecodeChars, h1, h2, h3, hn3]
      omega
  | a :: b :: c :: rest, h => by
      have ha : a < 256 := h a (by simp)
      have hb : b < 256 := h b (by simp)
      have hc : c < 256 := h c (by simp)
      have ih := b64_roundtrip_chars rest
        (fun x hx => h x (by simp [hx]))
      have h1 := b64Index_b64Char (a / 4) (by omega)
      have h2 := b64Index_b64Char (a % 4 * 16 + b / 16) (by omega)
      have h3 := b64Index_b64Char (b % 16 * 4 + c / 64) (by omega)
      have h4 := b64Index_b64Char (c % 64) (by omega)
      have hn3 := b64Char_ne_pad (b % 16 * 4 + c / 64) (by omega)
      have hn4 := b64Char_ne_pad (c % 64) (by omega)
      simp [b64EncodeChars, b64DecodeChars, h1, h2, h3, h4, hn3, hn4, ih]
      omega

theorem b64_roundtrip (bs : List Nat) (h : ∀ x ∈ bs, x < 256) :
    b64Decode (b64Encode bs) = some bs :=
  b64_roundtrip_chars bs h

/-! ### JSON values with embedded byte buffers

Credential values handled by `writeData`/`readData` are structured JSON
data in which `Buffer` (byte-array) nodes may be embedded.  `JVal` is the
value universe; `JArr`/`JObj` are the spines of arrays and of objects
(objects keep field order, as `JSON.stringify` does). -/

mutual

inductive JVal where
  | jnull
  | jbool (b : Bool)
  | jint (n : Int)
  | jstr (s : String)
  | jbuf (bytes : List Nat)
  | jarr (a : JArr)
  | jobj (o : JObj)
  deriving DecidableEq

inductive JArr where
  | nil
  | cons (v : JVal) (rest : JArr)
  deriving DecidableEq

inductive JObj where
  | nil
  | cons (k : String) (v : JVal) (rest : JObj)
  deriving DecidableEq

end

/-- JavaScript truthiness of a `JVal` (`null`, `false`, `0` and the empty
string are falsy; objects, arrays and buffers are truthy). -/
def jsTruthy : JVal → Bool
  | .jnull => false
  | .jbool b => b
  | .jint n => !(n == 0)
  | .jstr s => !(s == "")
  | .jbuf _ => true
  | .jarr _ => true
  | .jobj _ => true

/-- First field of an object with the given key (JS property access). -/
def objLookup : JObj → String → Option JVal
  | .nil, _ => none
  | .cons k v rest, key => if k == key then some v else objLookup rest key

/-- The object-shape test `value?.type === 'Buffer'` of
`BufferJSON.replacer`: the replacer canonicalizes any object carrying
this tag, both the `\x7b type, data \x7d` form that `Buffer.toJSON`
produced for a genuine buffer and a plain object that happens to carry
the same tag. -/
def replacerTag (o : JObj) : Bool :=
  match objLookup o "type" with
  | some (.jstr s) => s == "Buffer"
  | _ => false

/-- The guard of `BufferJSON.reviver`:
`value.buffer === true || value.type === 'Buffer'`. -/
def isBufTag (o : JObj) : Bool :=
  (match objLookup o "buffer" with
   | some (.jbool b) => b
   | _ => false) || replacerTag o

/-- UTF-8 encoding of one code point, as `Buffer.from(string)` performs
byte by byte. -/
def utf8Bytes (c : Nat) : List Nat :=
  if c < 128 then [c]
  else if c < 2048 then [192 + c / 64, 128 + c % 64]
  else if c < 65536 then [224 + c / 4096, 128 + c / 64 % 64, 128 + c % 64]
  else [240 + c / 262144, 128 + c / 4096 % 64, 128 + c / 64 % 64, 128 + c % 64]

/-- The UTF-8 bytes of a string (`Buffer.from(s)` with the default
encoding). -/
def strUtf8 (s : String) : List Nat :=
  s.data.foldr (fun c acc => utf8Bytes c.toNat ++ acc) []

/-- The reviver's payload selection `value.data || value.value`. -/
def bufPayload (o : JObj) : Option JVal :=
  match objLookup o "data" with
  | some v => if jsTruthy v then some v else objLookup o "value"
  | none => objLookup o "value"

/-- Bytes of a JSON array payload (`Buffer.from(array)`; non-numeric
entries collapse to 0, numbers are taken modulo 256 as `Buffer.from`
does). -/
def jarrBytes : JArr → List Nat
  | .nil => []
  | .cons (.jint n) rest => n.toNat % 256 :: jarrBytes rest
  | .cons _ rest => 0 :: jarrBytes rest

/-- Bytes reconstructed by the reviver: a string payload is read as base64
(`Buffer.from(val, 'base64')`, leniently — an undecodable string is
modelled as the empty buffer), an array payload byte by byte, anything
else as the empty buffer (`Buffer.from(val || [])`). -/
def bufBytes (o : JObj) : List Nat :=
  match bufPayload o with
  | some (.jstr s) => (b64Decode s).getD []
  | some (.jarr a) => jarrBytes a
  | _ => []

/-- The bytes `Buffer.from(value?.data || value)` reads from the payload
of a tag-shaped object inside the replacer: a truthy string is taken as
UTF-8, an array byte by byte, a buffer is copied; a falsy or non
array-like payload, on which `Buffer.from` has no byte reading, is
modelled as the empty buffer. -/
def replacerBytes (o : JObj) : List Nat :=
  match objLookup o "data" with
  | some (.jstr s) => if s = "" then [] else strUtf8 s
  | some (.jarr a) => jarrBytes a
  | some (.jbuf bs) => bs
  | _ => []

mutual

/-- Model of `JSON.parse(JSON.stringify(data, BufferJSON.replacer))` as
performed by `writeData`: every embedded buffer becomes the tagged object
`\x7b type: 'Buffer', data: <base64> \x7d` (`Buffer.prototype.toJSON`
followed by the replacer's canonicalization), and any plain object that
already carries the `type: 'Buffer'` tag is canonicalized the same way —
its payload is re-read with `Buffer.from` (a string as UTF-8 bytes) and
stored as base64, its other fields dropped; everything else is plain JSON
and survives the stringify/parse pair unchanged. -/
def serializeVal : JVal → JVal
  | .jnull => .jnull
  | .jbool b => .jbool b
  | .jint n => .jint n
  | .jstr s => .jstr s
  | .jbuf bs =>
      .jobj (.cons "type" (.jstr "Buffer") (.cons "data" (.jstr (b64Encode bs)) .nil))
  | .jarr a => .jarr (serializeArr a)
  | .jobj o =>
      if replacerTag o then
        .jobj (.cons "type" (.jstr "Buffer")
          (.cons "data" (.jstr (b64Encode (replacerBytes o))) .nil))
      else .jobj (serializeObj o)

def serializeArr : JArr → JArr
  | .nil => .nil
  | .cons v rest => .cons (serializeVal v) (serializeArr rest)

def serializeObj : JObj → JObj
  | .nil => .nil
  | .cons k v rest => .cons k (serializeVal v) (serializeObj rest)

end

mutual

/-- Model of `JSON.parse(JSON.stringify(doc.value), BufferJSON.reviver)`
as performed by `readData`: the reviver runs bottom-up, so an object's
fields are revived first, and an object that then carries the Buffer tag
shape is replaced by the byte buffer it denotes. -/
def reviveVal : JVal → JVal
  | .jnull => .jnull
  | .jbool b => .jbool b
  | .jint n => .jint n
  | .jstr s => .jstr s
  | .jbuf bs => .jbuf bs
  | .jarr a => .jarr (reviveArr a)
  | .jobj o =>
      let o1 := reviveObj o
      if isBufTag o1 then .jbuf (bufBytes o1) else .jobj o1

def reviveArr : JArr → JArr
  | .nil => .nil
  | .cons v rest => .cons (reviveVal v) (reviveArr rest)

def reviveObj : JObj → JObj
  | .nil => .nil
  | .cons k v rest => .cons k (reviveVal v) (reviveObj rest)

end

mutual

/-- A value is buffer-safe when every embedded buffer is a genuine byte
sequence (all bytes below 256) and no plain object carries the serialized
Buffer tag shape that the reviver would convert into a buffer. -/
def bufferSafe : JVal → Bool
  | .jnull => true
  | .jbool _ => true
  | .jint _ => true
  | .jstr _ => true
  | .jbuf bs => bs.all (fun x => decide (x < 256))
  | .jarr a => bufferSafeArr a
  | .jobj o => !(isBufTag o) && bufferSafeObj o

def bufferSafeArr : JArr → Bool
  | .nil => true
  | .cons v rest => bufferSafe v && bufferSafeArr rest

def bufferSafeObj : JObj → Bool
  | .nil => true
  | .cons _ v rest => bufferSafe v && bufferSafeObj rest

end

theorem b64EncodeChars_eq_nil : ∀ bs, b64EncodeChars bs = [] ↔ bs = [] := by
  intro bs
  match bs with
  | [] => simp [b64EncodeChars]
  | [a] => simp [b64EncodeChars]
  | [a, b] => simp [b64EncodeChars]
  | a :: b :: c :: r => simp [b64EncodeChars]

mutual

theorem reviveVal_serializeVal :
    ∀ v : JVal, bufferSafe v = true → reviveVal (serializeVal v) = v
  | .jnull, _ => rfl
  | .jbool _, _ => rfl
  | .jint _, _ => rfl
  | .jstr _, _ => rfl
  | .jbuf bs, h => by
      have hbytes : ∀ x ∈ bs, x < 256 := by
        simpa [bufferSafe, List.all_eq_true] using h
      by_cases hbs : bs = []
      · subst hbs
        simp [serializeVal, reviveVal, reviveObj, isBufTag, replacerTag,
          objLookup, bufBytes, bufPayload, jsTruthy, b64Encode, b64EncodeChars]
      · have henc : ¬ (b64Encode bs = "") := by
          simpa [b64Encode, String.ext_iff, b64EncodeChars_eq_nil] using hbs
        simp [serializeVal, reviveVal, reviveObj, isBufTag, replacerTag,
          objLookup, bufBytes, bufPayload, jsTruthy, henc, b64_roundtrip bs hbytes]
  | .jarr a, h => by
      have ih := reviveArr_serializeArr a (by simpa [bufferSafe] using h)
      simp [serializeVal, reviveVal, ih]
  | .jobj o, h => by
      have h1 : isBufTag o = false := by
        have := h
        simp [bufferSafe, Bool.and_eq_true] at this
        simpa using this.1
      have h2 : bufferSafeObj o = true := by
        have := h
        simp [bufferSafe, Bool.and_eq_true] at this
        exact this.2
      have hrt : replacerTag o = false := by
        cases hr : replacerTag o
        · rfl
        · rw [isBufTag, hr, Bool.or_true] at h1
          exact absurd h1 (by simp)
      have ih := reviveObj_serializeObj o h2
      simp [serializeVal, reviveVal, ih, h1, hrt]

theorem reviveArr_serializeArr :
    ∀ a : JArr, bufferSafeArr a = true → reviveArr (serializeArr a) = a
  | .nil, _ => rfl
  | .cons v rest, h => by
      have hv : bufferSafe v = true := by
        simp [bufferSafeArr, Bool.and_eq_true] at h
        exact h.1
      have hr : bufferSafeArr rest = true := by
        simp [bufferSafeArr, Bool.and_eq_true] at h
        exact h.2
      simp [serializeArr, reviveArr, reviveVal_serializeVal v hv,
        reviveArr_serializeArr rest hr]

theorem reviveObj_serializeObj :
    ∀ o : JObj, bufferSafeObj o = true → reviveObj (serializeObj o) = o
  | .nil, _ => rfl
  | .cons k v rest, h => by
      have hv : bufferSafe v = true := by
        simp [bufferSafeObj, Bool.and_eq_true] at h
        exact h.1
      have hr : bufferSafeObj rest = true := by
        simp [bufferSafeObj, Bool.and_eq_true] at h
        exact h.2
      simp [serializeObj, reviveObj, reviveVal_serializeVal v hv,
        reviveObj_serializeObj rest hr]

end

/-! ### The MongoDB credential store (`useMongoDBAuthState`)

One logical table `baileys_auth` of rows `(sessionId, key, value)` with a
unique index on `(sessionId, key)`.  `writeData` is
`updateOne(filter, set, upsert: true)`: the first matching row is
replaced, otherwise a row is appended.  `readData` is `findOne` followed
by the reviver; `removeData` is `deleteOne` (first match). -/

structure AuthDoc where
  sessionId : String
  key : String
  value : JVal
  deriving DecidableEq

/-- The Mongo filter `\x7b sessionId, key \x7d` on a row. -/
def authMatch (sid k : String) (d : AuthDoc) : Bool :=
  d.sessionId == sid && d.key == k

/-- `updateOne` with `upsert: true`: replace the first matching row, else
append a new row. -/
def upsertRow : List AuthDoc → String → String → JVal → List AuthDoc
  | [], sid, k, v => [⟨sid, k, v⟩]
  | d :: ds, sid, k, v =>
      if authMatch sid k d then ⟨sid, k, v⟩ :: ds
      else d :: upsertRow ds sid k v

/-- `writeData(key, data)`: serialize with the Buffer replacer and upsert. -/
def writeData (st : List AuthDoc) (sid k : String) (data : JVal) : List AuthDoc :=
  upsertRow st sid k (serializeVal data)

/-- `readData(key)`: `findOne` and revive; `null` when absent. -/
def readData (st : List AuthDoc) (sid k : String) : Option JVal :=
  (st.find? (authMatch sid k)).map (fun d => reviveVal d.value)

/-- `removeData(key)`: `deleteOne`. -/
def removeData (st : List AuthDoc) (sid k : String) : List AuthDoc :=
  st.eraseP (authMatch sid k)

/-- `deleteSession()`: `deleteMany(\x7b sessionId \x7d)`. -/
def deleteSessionRows (st : List AuthDoc) (sid : String) : List AuthDoc :=
  st.filter (fun d => !(d.sessionId == sid))

/-- The raw stored value of a row (no reviver), for stating row-level facts. -/
def findRowValue (st : List AuthDoc) (sid k : String) : Option JVal :=
  (st.find? (authMatch sid k)).map (fun d => d.value)

/-- Number of rows with the given `(sessionId, key)`. -/
def countRows (st : List AuthDoc) (sid k : String) : Nat :=
  st.countP (authMatch sid k)

/-- The row key written by `state.keys.set` and read by `state.keys.get`. -/
def derivedKey (cat kid : String) : String :=
  cat ++ "-" ++ kid

/-- `state.keys.set(data)`: for each `(category, id, value)`, a truthy
value is upserted at key `category-id` and a falsy one deletes the row.
The source fires the writes concurrently via `Promise.all`; they touch
pairwise distinct keys, so they are embedded in sequence. -/
def setKeys (st : List AuthDoc) (sid : String) :
    List (String × String × JVal) → List AuthDoc
  | [] => st
  | (cat, kid, v) :: rest =>
      setKeys
        (if jsTruthy v then writeData st sid (derivedKey cat kid) v
         else removeData st sid (derivedKey cat kid)) sid rest

/-- The unique-index invariant of the `baileys_auth` collection. -/
def uniqKeys (st : List AuthDoc) : Prop :=
  (st.map (fun d => (d.sessionId, d.key))).Nodup

theorem authMatch_self (sid k : String) (v : JVal) :
    authMatch sid k ⟨sid, k, v⟩ = true := by
  simp [authMatch]

theorem find?_upsertRow_self (st : List AuthDoc) (sid k : String) (v : JVal) :
    (upsertRow st sid k v).find? (authMatch sid k) = some ⟨sid, k, v⟩ := by
  induction st with
  | nil => simp [upsertRow, List.find?, authMatch_self]
  | cons d ds ih =>
      by_cases hd : authMatch sid k d = true
      · simp [upsertRow, hd, List.find?, authMatch_self]
      · simp only [upsertRow, hd]
        simp only [Bool.false_eq_true, if_false]
        rw [List.find?_cons_of_neg _ (by simp [hd])]
        exact ih

theorem readData_writeData_self (st : List AuthDoc) (sid k : String) (v : JVal) :
    readData (writeData st sid k v) sid k = some (reviveVal (serializeVal v)) := by
  simp [readData, writeData, find?_upsertRow_self]

theorem countRows_writeData (st : List AuthDoc) (sid k : String) (v : JVal) :
    countRows (writeData st sid k v) sid k =
      if countRows st sid k = 0 then 1 else countRows st sid k := by
  simp only [countRows, writeData]
  induction st with
  | nil => simp [upsertRow, List.countP_cons, authMatch_self]
  | cons d ds ih =>
      by_cases hd : authMatch sid k d = true
      · simp [upsertRow, hd, List.countP_cons, authMatch_self]
      · simp [upsertRow, hd, List.countP_cons, ih]

theorem findRowValue_writeData_self (st : List AuthDoc) (sid k : String) (v : JVal) :
    findRowValue (writeData st sid k v) sid k = some (serializeVal v) := by
  simp [findRowValue, writeData, find?_upsertRow_self]

theorem authMatch_false_of_other (sid k sid1 k1 : String) (d : AuthDoc)
    (hd : authMatch sid k d = true) (hne : ¬ (sid1 = sid ∧ k1 = k)) :
    authMatch sid1 k1 d = false := by
  simp [authMatch] at hd ⊢
  intro h1 h2
  exact hne ⟨h1.symm.trans hd.1, h2.symm.trans hd.2⟩

theorem findRowValue_writeData_frame (st : List AuthDoc) (sid k sid1 k1 : String)
    (v : JVal) (hne : ¬ (sid1 = sid ∧ k1 = k)) :
    findRowValue (writeData st sid k v) sid1 k1 = findRowValue st sid1 k1 := by
  have hmatch : authMatch sid1 k1 ⟨sid, k, serializeVal v⟩ = false :=
    authMatch_false_of_other sid k sid1 k1 _ (authMatch_self sid k _) hne
  simp only [findRowValue, writeData]
  induction st with
  | nil => simp [upsertRow, List.find?, hmatch]
  | cons d ds ih =>
      by_cases hd : authMatch sid k d = true
      · have hd1 := authMatch_false_of_other sid k sid1 k1 d hd hne
        simp [upsertRow, hd, List.find?, hmatch, hd1]
      · simp only [upsertRow, hd, Bool.false_eq_true, if_false]
        by_cases hd1 : authMatch sid1 k1 d = true
        · simp [List.find?, hd1]
        · rw [List.find?_cons_of_neg _ (by simp [hd1]),
            List.find?_cons_of_neg _ (by simp [hd1])]
          exact ih

theorem uniqKeys_tail (d : AuthDoc) (ds : List AuthDoc) (hu : uniqKeys (d :: ds)) :
    uniqKeys ds := by
  simp only [uniqKeys, List.map_cons, List.nodup_cons] at hu
  exact hu.2

theorem findRowValue_removeData_self (st : List AuthDoc) (sid k : String)
    (hu : uniqKeys st) :
    findRowValue (removeData st sid k) sid k = none := by
  induction st with
  | nil => simp [findRowValue, removeData, List.eraseP]
  | cons d ds ih =>
      cases hd : authMatch sid k d with
      | true =>
          simp only [findRowValue, removeData, List.eraseP_cons, hd, cond_true]
          rw [List.find?_eq_none.mpr]
          · rfl
          · intro x hx hmx
            simp only [authMatch, Bool.and_eq_true, beq_iff_eq] at hd hmx
            have hmem : (x.sessionId, x.key) ∈ ds.map (fun d => (d.sessionId, d.key)) :=
              List.mem_map.mpr ⟨x, hx, rfl⟩
            rw [hmx.1, hmx.2, ← hd.1, ← hd.2] at hmem
            simp only [uniqKeys, List.map_cons, List.nodup_cons] at hu
            exact hu.1 hmem
      | false =>
          simp only [findRowValue, removeData, List.eraseP_cons, hd, cond_false]
          rw [List.find?_cons_of_neg _ (by simp [hd])]
          simpa [findRowValue, removeData] using ih (uniqKeys_tail d ds hu)

theorem findRowValue_removeData_frame (st : List AuthDoc) (sid k sid1 k1 : String)
    (hne : ¬ (sid1 = sid ∧ k1 = k)) :
    findRowValue (removeData st sid k) sid1 k1 = findRowValue st sid1 k1 := by
  induction st with
  | nil => simp [findRowValue, removeData, List.eraseP]
  | cons d ds ih =>
      cases hd : authMatch sid k d with
      | true =>
          have hd1 := authMatch_false_of_other sid k sid1 k1 d hd hne
          simp only [findRowValue, removeData, List.eraseP_cons, hd, cond_true]
          rw [List.find?_cons_of_neg _ (by simp [hd1])]
      | false =>
          simp only [findRowValue, removeData, List.eraseP_cons, hd, cond_false]
          cases hd1 : authMatch sid1 k1 d with
          | true =>
              rw [List.find?_cons_of_pos _ (by simp [hd1]),
                List.find?_cons_of_pos _ (by simp [hd1])]
          | false =>
              rw [List.find?_cons_of_neg _ (by simp [hd1]),
                List.find?_cons_of_neg _ (by simp [hd1])]
              exact ih

theorem upsertRow_pairs (st : List AuthDoc) (sid k : String) (v : JVal) :
    ∀ x ∈ (upsertRow st sid k v).map (fun d => (d.sessionId, d.key)),
      x ∈ st.map (fun d => (d.sessionId, d.key)) ∨ x = (sid, k) := by
  induction st with
  | nil =>
      intro x hx
      simp [upsertRow] at hx
      exact Or.inr hx
  | cons d ds ih =>
      intro x hx
      cases hd : authMatch sid k d with
      | true =>
          simp only [upsertRow, hd, if_true, List.map_cons, List.mem_cons] at hx
          rcases hx with hx | hx
          · exact Or.inr hx
          · exact Or.inl (by rw [List.map_cons]; exact List.mem_cons_of_mem _ hx)
      | false =>
          simp only [upsertRow, hd, Bool.false_eq_true, if_false,
            List.map_cons, List.mem_cons] at hx
          rcases hx with hx | hx
          · exact Or.inl (by rw [List.map_cons, hx]; exact List.mem_cons_self _ _)
          · rcases ih x hx with hx1 | hx1
            · exact Or.inl (by rw [List.map_cons]; exact List.mem_cons_of_mem _ hx1)
            · exact Or.inr hx1

theorem uniqKeys_writeData (st : List AuthDoc) (sid k : String) (v : JVal)
    (hu : uniqKeys st) : uniqKeys (writeData st sid k v) := by
  simp only [writeData]
  induction st with
  | nil => simp [upsertRow, uniqKeys]
  | cons d ds ih =>
      cases hd : authMatch sid k d with
      | true =>
          simp only [authMatch, Bool.and_eq_true, beq_iff_eq] at hd
          simp only [upsertRow, authMatch, hd.1, hd.2, beq_self_eq_true,
            Bool.and_self, if_true]
          simp only [uniqKeys, List.map_cons, List.nodup_cons] at hu ⊢
          rw [← hd.1, ← hd.2]
          exact hu
      | false =>
          simp only [upsertRow, hd, Bool.false_eq_true, if_false]
          simp only [uniqKeys, List.map_cons, List.nodup_cons] at hu ⊢
          refine And.intro ?_ (ih hu.2)
          intro hmem
          rcases upsertRow_pairs ds sid k (serializeVal v) _ hmem with h1 | h1
          · exact hu.1 h1
          · rw [Prod.mk.injEq] at h1
            simp [authMatch, h1.1, h1.2] at hd

theorem uniqKeys_removeData (st : List AuthDoc) (sid k : String)
    (hu : uniqKeys st) : uniqKeys (removeData st sid k) :=
  List.Nodup.sublist (List.Sublist.map _ (List.eraseP_sublist _)) hu

theorem findRowValue_setKeys_frame (sid bigK : String) :
    ∀ (entries : List (String × String × JVal)) (st : List AuthDoc),
      (∀ e ∈ entries, ¬ derivedKey e.1 e.2.1 = bigK) →
      findRowValue (setKeys st sid entries) sid bigK = findRowValue st sid bigK
  | [], st, _ => rfl
  | (cat, kid, v) :: rest, st, h => by
      have hK : ¬ derivedKey cat kid = bigK := h (cat, kid, v) (by simp)
      have hne : ¬ (sid = sid ∧ bigK = derivedKey cat kid) := by
        intro hcon
        exact hK hcon.2.symm
      simp only [setKeys]
      rw [findRowValue_setKeys_frame sid bigK rest _
        (fun e he => h e (List.mem_cons_of_mem _ he))]
      by_cases hv : jsTruthy v = true
      · simp only [hv, if_true]
        exact findRowValue_writeData_frame st sid (derivedKey cat kid) sid bigK v hne
      · simp only [hv]
        simp only [Bool.false_eq_true, if_false]
        exact findRowValue_removeData_frame st sid (derivedKey cat kid) sid bigK hne

theorem uniqKeys_setKeys (sid : String) :
    ∀ (entries : List (String × String × JVal)) (st : List AuthDoc),
      uniqKeys st → uniqKeys (setKeys st sid entries)
  | [], _, hu => hu
  | (cat, kid, v) :: rest, st, hu => by
      simp only [setKeys]
      refine uniqKeys_setKeys sid rest _ ?_
      by_cases hv : jsTruthy v = true
      · simp only [hv, if_true]
        exact uniqKeys_writeData st sid (derivedKey cat kid) v hu
      · simp only [hv, Bool.false_eq_true, if_false]
        exact uniqKeys_removeData st sid (derivedKey cat kid) hu

/-! ### The `SessionManager`

In-memory session table, per-session decryption-error counters, the
MongoDB-backed credential rows and session-metadata documents, and the
side effects visible to a caller: socket emissions, scheduled
`setTimeout(() => createSession(...))` retries, and invocations of the
failure-recovery purge. -/

/-- `Map.get` on a string-keyed JS `Map` modelled as an association list. -/
def alistGet {β : Type} (m : List (String × β)) (k : String) : Option β :=
  (m.find? (fun p => p.1 == k)).map (fun p => p.2)

/-- `Map.set`: replace the entry of the key, or append a new one. -/
def alistSet {β : Type} : List (String × β) → String → β → List (String × β)
  | [], k, v => [(k, v)]
  | p :: ps, k, v => if p.1 == k then (k, v) :: ps else p :: alistSet ps k v

/-- `Map.delete`: a JS map holds at most one entry per key, so deletion
leaves the key absent. -/
def alistErase {β : Type} (m : List (String × β)) (k : String) :
    List (String × β) :=
  m.filter (fun p => !(p.1 == k))

/-- The in-memory status union `'connecting' | 'connected' | 'disconnected'`. -/
inductive SessStatus where
  | connecting
  | connected
  | disconnected
  deriving DecidableEq

/-- The `SessionInfo` record of the in-memory table (the live socket
object itself is tracked separately in `MState.liveConns`). -/
structure SessionInfo where
  sessionId : String
  status : SessStatus
  phoneNumber : Option String
  connectedAt : Option Nat
  deriving DecidableEq

/-- The `SessionDoc` persisted in the `sessions` collection. -/
structure SessionDoc where
  sessionId : String
  phoneNumber : Option String
  status : String
  createdAt : Nat
  lastActive : Nat
  googleConnected : Bool
  deriving DecidableEq

/-- Events emitted to the caller's socket: `session-status` payloads,
`qr-code` payloads, and `session-error` payloads. -/
inductive Emission where
  | statusEv (status : String) (sessionId : String) (phone : Option String)
  | qrEv (sessionId : String)
  | errorEv (msg : String)
  deriving DecidableEq

/-- The full observable state of one `SessionManager`: `sessions` and
`decryptCounts` are its two in-memory maps, `liveConns` is the multiset of
sockets opened by `makeWASocket` and not yet closed, `authRows` and
`sessionDocs` are the two MongoDB collections, `scheduled` records pending
`setTimeout(() => this.createSession(sid, ...), delay)` retries as
`(sid, delay)` pairs, and `purgeLog` records the sessions for which
`clearCorruptedPreKeys` was invoked, in order. -/
structure MState where
  sessions : List (String × SessionInfo)
  liveConns : List String
  decryptCounts : List (String × Nat)
  authRows : List AuthDoc
  sessionDocs : List SessionDoc
  scheduled : List (String × Nat)
  purgeLog : List String
  deriving DecidableEq

/-- The manager state with no sessions and empty collections. -/
def emptyM : MState :=
  ⟨[], [], [], [], [], [], []⟩

/-- Classification of an error as a decryption failure, by name or by
message fragment, exactly as in `handleDecryptError`. -/
def isDecryptError (errName errMsg : String) : Bool :=
  errName == "PreKeyError" || errName == "SessionError" ||
  strHasSub "Invalid PreKey ID" errMsg ||
  strHasSub "failed to decrypt" errMsg ||
  strHasSub "No matching sessions" errMsg

/-- The alternatives of the purge regex
`/^(pre-key-|sender-key-|session-|sender-key-memory-|app-state-sync-version-)/`. -/
def transientPrefixList : List String :=
  ["pre-key-", "sender-key-", "session-", "sender-key-memory-",
   "app-state-sync-version-"]

/-- A key matches the purge regex when one of the alternatives is an
initial segment of it. -/
def isTransientKey (k : String) : Bool :=
  transientPrefixList.any (fun p => strBegins p k)

/-- `clearCorruptedPreKeys(sessionId)`: `deleteMany` on the auth
collection filtered by the sessionId and the key regex. -/
def clearCorruptedPreKeys (st : MState) (sid : String) : MState :=
  { st with
    authRows :=
      st.authRows.filter (fun d => !(d.sessionId == sid && isTransientKey d.key)),
    purgeLog := st.purgeLog ++ [sid] }

/-- `SessionManager.MAX_DECRYPT_ERRORS`. -/
def MAX_DECRYPT_ERRORS : Nat := 5

/-- `handleDecryptError`: ignore non-decryption errors; otherwise bump the
per-session counter, and at the threshold purge the transient keys and
reset the counter to 0. -/
def handleDecryptError (st : MState) (sid errName errMsg : String) : MState :=
  if isDecryptError errName errMsg = false then st
  else
    let count := (alistGet st.decryptCounts sid).getD 0 + 1
    let st1 := { st with decryptCounts := alistSet st.decryptCounts sid count }
    if MAX_DECRYPT_ERRORS ≤ count then
      let st2 := clearCorruptedPreKeys st1 sid
      { st2 with decryptCounts := alistSet st2.decryptCounts sid 0 }
    else st1

/-- A run of `n` consecutive classified decryption errors on one session. -/
def iterDecryptErrors (st : MState) (sid errName errMsg : String) : Nat → MState
  | 0 => st
  | n + 1 =>
      handleDecryptError (iterDecryptErrors st sid errName errMsg n) sid errName errMsg

/-- Opaque model of the fresh identity produced by `initAuthCreds()` when
no `creds` row exists yet. -/
def initAuthCredsVal : JVal := .jstr "init-auth-creds"

/-- Result of one `createSession` call: the new state, the synchronous
emissions to the caller, how many new socket objects `makeWASocket`
produced, and whether the auth-state bootstrap found no `creds` row and
seeded a fresh identity (first-time pairing). -/
structure CreateResult where
  state : MState
  emits : List Emission
  opened : Nat
  freshPairing : Bool
  deriving DecidableEq

/-- The non-idempotent tail of `createSession`: `useMongoDBAuthState`
(load or seed `creds`), `makeWASocket`, reset of the decrypt-error
counter, and insertion of the session as `connecting`. -/
def createSessionOpen (st : MState) (sid : String) : CreateResult :=
  let fresh := (findRowValue st.authRows sid "creds").isNone
  let rows :=
    if fresh then writeData st.authRows sid "creds" initAuthCredsVal
    else st.authRows
  { state :=
      { st with
        authRows := rows,
        liveConns := sid :: st.liveConns,
        decryptCounts := alistSet st.decryptCounts sid 0,
        sessions := alistSet st.sessions sid ⟨sid, .connecting, none, none⟩ },
    emits := [],
    opened := 1,
    freshPairing := fresh }

/-- `createSession(sessionId, socket)`: if the session exists and is
connected, only re-emit the current status; otherwise open a fresh
connection. -/
def createSession (st : MState) (sid : String) : CreateResult :=
  match alistGet st.sessions sid with
  | some info =>
      if info.status = SessStatus.connected then
        { state := st,
          emits := [.statusEv "connected" sid info.phoneNumber],
          opened := 0,
          freshPairing := false }
      else createSessionOpen st sid
  | none => createSessionOpen st sid

/-- `updateOne(\x7b sessionId \x7d, set, upsert: true)` on the `sessions`
collection performed on the `connection === 'open'` event. -/
def upsertSessionDoc (docs : List SessionDoc) (sid phone : String) (now : Nat) :
    List SessionDoc :=
  match docs with
  | [] => [⟨sid, some phone, "connected", now, now, false⟩]
  | d :: ds =>
      if d.sessionId == sid then
        ⟨sid, some phone, "connected", d.createdAt, now, false⟩ :: ds
      else d :: upsertSessionDoc ds sid phone now

/-- The `connection === 'open'` branch of the `connection.update`
handler: mark the session connected, persist the session document, and
report the status. -/
def onConnectionOpen (st : MState) (sid phone : String) (now : Nat) :
    MState × List Emission :=
  ({ st with
      sessions := alistSet st.sessions sid ⟨sid, .connected, some phone, some now⟩,
      sessionDocs := upsertSessionDoc st.sessionDocs sid phone now },
    [.statusEv "connected" sid (some phone)])

/-- `updateOne(\x7b sessionId \x7d, \x7b set: \x7b status \x7d \x7d)`
without upsert: the first matching document, if any, gets the new status. -/
def setDocStatus : List SessionDoc → String → String → List SessionDoc
  | [], _, _ => []
  | d :: ds, sid, s =>
      if d.sessionId == sid then { d with status := s } :: ds
      else d :: setDocStatus ds sid s

/-- The `connection === 'close'` branch.  `code` is the Boom status code
of `lastDisconnect` (`DisconnectReason.loggedOut = 401`); the closing
socket leaves the live-connection multiset.  Code 401 is terminal logout;
440/428 is connection-replaced (purge credentials, re-create after 5000
ms); any other close schedules a plain reconnect after 3000 ms. -/
def onConnectionClose (st : MState) (sid : String) (code : Option Nat) :
    MState × List Emission :=
  let st0 := { st with liveConns := st.liveConns.erase sid }
  if code = some 401 then
    ({ st0 with
        authRows := deleteSessionRows st0.authRows sid,
        sessions := alistErase st0.sessions sid,
        decryptCounts := alistErase st0.decryptCounts sid,
        sessionDocs := setDocStatus st0.sessionDocs sid "logged_out" },
      [.statusEv "logged_out" sid none])
  else if code = some 440 ∨ code = some 428 then
    ({ st0 with
        authRows := deleteSessionRows st0.authRows sid,
        sessions := alistErase st0.sessions sid,
        decryptCounts := alistErase st0.decryptCounts sid,
        scheduled := st0.scheduled ++ [(sid, 5000)] },
      [.statusEv "reconnecting" sid none])
  else if ¬ code = some 401 then
    ({ st0 with scheduled := st0.scheduled ++ [(sid, 3000)] },
      [.statusEv "reconnecting" sid none])
  else (st0, [])

/-- `getActiveSessionCount()`: in-memory sessions whose status is
connected. -/
def getActiveSessionCount (st : MState) : Nat :=
  st.sessions.countP (fun p => decide (p.2.status = SessStatus.connected))

/-- The stats record returned by `getSessionStats()`. -/
structure SessionStats where
  total : Nat
  connected : Nat
  googleConnected : Nat
  deriving DecidableEq

/-- `getSessionStats()`: `countDocuments()` over the sessions collection,
the in-memory connected count, and the google-connected document count. -/
def getSessionStats (st : MState) : SessionStats :=
  { total := st.sessionDocs.length,
    connected := getActiveSessionCount st,
    googleConnected := st.sessionDocs.countP (fun d => d.googleConnected) }

/-- The session documents carrying a given sessionId. -/
def docsFor (docs : List SessionDoc) (sid : String) : List SessionDoc :=
  docs.filter (fun d => d.sessionId == sid)

/-! ### The per-session message dedup pipeline (`setupMessageHandler`)

Two JS `Set`s of message ids: ids of messages the bot itself sent
(recorded by the `sendMessage` wrapper) and ids already processed, each
with a `setTimeout` that deletes the id five minutes after it was
recorded.

The two sets are embedded differently, each matching its own usage
pattern in the source.  The self-sent set receives an unconditional
`add` plus a fresh deletion timer on every send, and the `Set` holds one
entry per id, so an id re-marked before its first timer fires is still
deleted when that first timer fires; the model therefore keeps the `Set`
contents and the multiset of pending deletion timers explicitly, and
fires every timer due at or before an event's time when that event is
handled (timers firing between events have no other observable effect).
The processed set is only added to when the id is not currently present,
so successive lifetimes of one id never overlap and membership at time
`t` coincides with having some recorded entry whose expiry lies beyond
`t`; it is embedded as accumulated `(id, expiry)` pairs. -/

/-- The five-minute retention window of both dedup sets, in milliseconds. -/
def DEDUP_TTL : Nat := 5 * 60 * 1000

/-- `Set.add` on a set of ids: one entry per id. -/
def setAdd (s : List String) (id : String) : List String :=
  if s.contains id then s else id :: s

/-- `Set.delete` on a set of ids. -/
def setDel (s : List String) (id : String) : List String :=
  s.filter (fun x => !(x == id))

/-- The dedup state: the self-sent `Set` with its pending deletion
timers `(id, fire time)`, and the processed-id records `(id, expiry)`. -/
structure DedupState where
  botSent : List String
  botTimers : List (String × Nat)
  processed : List (String × Nat)
  deriving DecidableEq

/-- Both sets start empty when the handler is installed. -/
def dedupInit : DedupState := ⟨[], [], []⟩

/-- Processed-set membership at time `t`: some record of the id has not
yet been deleted by its timer. -/
def activeMem (s : List (String × Nat)) (id : String) (t : Nat) : Bool :=
  s.any (fun p => p.1 == id && decide (t < p.2))

/-- Fire every pending deletion timer due at or before `t`: each fired
timer deletes its id from the set. -/
def fireDue (s : List String) (timers : List (String × Nat)) (t : Nat) :
    List String :=
  (timers.filter (fun p => decide (p.2 ≤ t))).foldl (fun acc p => setDel acc p.1) s

/-- Advance the self-sent set to time `t`: timers due at or before `t`
have fired and are no longer pending. -/
def advanceBot (st : DedupState) (t : Nat) : DedupState :=
  { st with
    botSent := fireDue st.botSent st.botTimers t,
    botTimers := st.botTimers.filter (fun p => decide (t < p.2)) }

/-- The `sendMessage` wrapper after a successful send at time `t`: add
the reported id to the self-sent set and schedule an unconditional
deletion timer for `t` plus the retention window. -/
def markSent (st : DedupState) (id : String) (t : Nat) : DedupState :=
  let st1 := advanceBot st t
  { st1 with
    botSent := setAdd st1.botSent id,
    botTimers := st1.botTimers ++ [(id, t + DEDUP_TTL)] }

/-- One `messages.upsert` event as seen by the handler: the upsert type,
whether a message body is present, the message id, the sender jid, the
`fromMe` flag, the extracted text, and the arrival time. -/
structure InboundEvent where
  upsertType : String
  hasMessage : Bool
  messageId : Option String
  senderJid : Option String
  fromMe : Bool
  text : String
  time : Nat
  deriving DecidableEq

/-- The pure content filters that run after the dedup gates: no sender
jid, status broadcasts, newsletter jids and blank texts are dropped, and
a message from another party that is neither self-chat nor a command is
skipped for privacy. -/
def contentOk (ev : InboundEvent) : Bool :=
  match ev.senderJid with
  | none => false
  | some j =>
      if j == "status@broadcast" then false
      else if strHasSub "@newsletter" j then false
      else if strBlank ev.text then false
      else ev.fromMe || strEnds "@lid" j || strBegins "/" ev.text

/-- The `messages.upsert` handler at time `ev.time`, up to the point
where a message reaches per-message processing: the self-sent timers due
by then have fired, then the dedup gates run (`botSentMessageIds.has`,
then `processedMessageIds.has`).  The boolean result is true exactly
when the event passes the dedup gates and the content filters, i.e. when
it is delivered onward; an id that passes the dedup gates is recorded in
the processed set before the content filters run, as in the source. -/
def processInbound (st : DedupState) (ev : InboundEvent) : DedupState × Bool :=
  let st1 := advanceBot st ev.time
  if ¬ ev.upsertType = "notify" then (st1, false)
  else if ev.hasMessage = false then (st1, false)
  else
    match ev.messageId with
    | some id =>
        if st1.botSent.contains id then (st1, false)
        else if activeMem st1.processed id ev.time then (st1, false)
        else
          ({ st1 with processed := (id, ev.time + DEDUP_TTL) :: st1.processed },
            contentOk ev)
    | none => (st1, contentOk ev)

/-- An event of the dedup pipeline: either the wrapper records a sent id,
or an inbound upsert arrives. -/
inductive DedupEv where
  | sent (id : String) (t : Nat)
  | inbound (ev : InboundEvent)
  deriving DecidableEq

/-- The message id an event carries, if any. -/
def dedupEvId : DedupEv → Option String
  | .sent id _ => some id
  | .inbound ev => ev.messageId

/-- The id an event marks as self-sent, if any. -/
def sentIdOf : DedupEv → Option String
  | .sent id _ => some id
  | .inbound _ => none

/-- The wall-clock instant at which an event is handled. -/
def evTimeOf : DedupEv → Nat
  | .sent _ t => t
  | .inbound ev => ev.time

/-- One step of the pipeline; the boolean is the delivered verdict of an
inbound event (a sent record delivers nothing). -/
def dedupStep (st : DedupState) : DedupEv → DedupState × Bool
  | .sent id t => (markSent st id t, false)
  | .inbound ev => processInbound st ev

/-- Run a trace of pipeline events. -/
def runDedup (st : DedupState) : List DedupEv → DedupState
  | [] => st
  | e :: rest => runDedup (dedupStep st e).1 rest

theorem runDedup_append (st : DedupState) (l1 l2 : List DedupEv) :
    runDedup st (l1 ++ l2) = runDedup (runDedup st l1) l2 := by
  induction l1 generalizing st with
  | nil => rfl
  | cons e rest ih =>
      simp only [List.cons_append, runDedup]
      exact ih _

theorem setAdd_contains_self (s : List String) (id : String) :
    (setAdd s id).contains id = true := by
  by_cases h : id ∈ s
  · simp [setAdd, h]
  · simp [setAdd, h]

theorem setAdd_contains_true_of (s : List String) (j id : String)
    (h : s.contains id = true) : (setAdd s j).contains id = true := by
  have hm : id ∈ s := by simpa using h
  by_cases hj : j ∈ s
  · simp [setAdd, hj, hm]
  · simp [setAdd, hj, hm]

theorem setAdd_contains_false_of (s : List String) (j id : String)
    (hne : ¬ j = id) (h : s.contains id = false) :
    (setAdd s j).contains id = false := by
  have hm : ¬ id ∈ s := by simpa using h
  by_cases hj : j ∈ s
  · simp [setAdd, hj, hm]
  · simp [setAdd, hj, hm]
    exact fun hc => hne hc.symm

theorem foldlDel_contains_rev :
    ∀ (l : List (String × Nat)) (s : List String) (id : String),
      (l.foldl (fun acc p => setDel acc p.1) s).contains id = true →
      s.contains id = true
  | [], _, _, h => h
  | p :: ps, s, id, h => by
      have hs := foldlDel_contains_rev ps (setDel s p.1) id h
      simp [setDel] at hs ⊢
      exact hs.1

theorem foldlDel_contains :
    ∀ (l : List (String × Nat)) (s : List String) (id : String),
      (∀ p ∈ l, ¬ p.1 = id) → s.contains id = true →
      (l.foldl (fun acc p => setDel acc p.1) s).contains id = true
  | [], _, _, _, h => h
  | p :: ps, s, id, hl, h => by
      refine foldlDel_contains ps (setDel s p.1) id
        (fun q hq => hl q (by simp [hq])) ?_
      have hne : ¬ p.1 = id := hl p (by simp)
      simp [setDel] at h ⊢
      exact ⟨h, fun hc => hne hc.symm⟩

theorem advanceBot_processed (st : DedupState) (t : Nat) :
    (advanceBot st t).processed = st.processed := rfl

theorem advanceBot_contains_false (st : DedupState) (t : Nat) (id : String)
    (h : st.botSent.contains id = false) :
    (advanceBot st t).botSent.contains id = false := by
  cases hc : (advanceBot st t).botSent.contains id with
  | false => rfl
  | true =>
      have hmem := foldlDel_contains_rev
        (st.botTimers.filter (fun p => decide (p.2 ≤ t))) st.botSent id hc
      rw [h] at hmem
      exact Bool.noConfusion hmem

theorem advanceBot_contains_true (st : DedupState) (t : Nat) (id : String)
    (h : st.botSent.contains id = true)
    (ht : ∀ p ∈ st.botTimers, p.1 = id → t < p.2) :
    (advanceBot st t).botSent.contains id = true := by
  refine foldlDel_contains _ st.botSent id ?_ h
  intro p hp hcon
  have hmem := List.mem_filter.mp hp
  have h1 := ht p hmem.1 hcon
  have h2 := hmem.2
  simp at h2
  omega

theorem advanceBot_timers_sub (st : DedupState) (t : Nat) (p : String × Nat)
    (hp : p ∈ (advanceBot st t).botTimers) : p ∈ st.botTimers :=
  (List.mem_filter.mp hp).1

theorem processInbound_shape (st : DedupState) (ev : InboundEvent) :
    (processInbound st ev).1.botSent = (advanceBot st ev.time).botSent ∧
      (processInbound st ev).1.botTimers = (advanceBot st ev.time).botTimers ∧
      ((processInbound st ev).1.processed = st.processed ∨
        ∃ id, ev.messageId = some id ∧
          (processInbound st ev).1.processed =
            (id, ev.time + DEDUP_TTL) :: st.processed) := by
  by_cases h1 : ev.upsertType = "notify"
  · by_cases h2 : ev.hasMessage = false
    · simp [processInbound, h1, h2, advanceBot_processed]
    · cases hmid : ev.messageId with
      | some id =>
          by_cases h3 : id ∈ (advanceBot st ev.time).botSent
          · simp [processInbound, hmid, h1, h2, h3, advanceBot_processed]
          · by_cases h4 : activeMem st.processed id ev.time = true
            · simp [processInbound, hmid, h1, h2, h3, h4, advanceBot_processed]
            · refine ⟨?_, ?_, Or.inr ⟨id, rfl, ?_⟩⟩ <;>
                simp [processInbound, hmid, h1, h2, h3, h4, advanceBot_processed]
      | none => simp [processInbound, hmid, h1, h2, advanceBot_processed]
  · simp [processInbound, h1, advanceBot_processed]

theorem processed_step_mono (st : DedupState) (e : DedupEv) (p : String × Nat)
    (hp : p ∈ st.processed) : p ∈ (dedupStep st e).1.processed := by
  cases e with
  | sent id t => simpa [dedupStep, markSent, advanceBot_processed] using hp
  | inbound ev =>
      rcases (processInbound_shape st ev).2.2 with hs | ⟨i, _, hs⟩
      · simpa [dedupStep, hs] using hp
      · simp only [dedupStep, hs]
        exact List.mem_cons_of_mem _ hp

theorem processed_run_mono (st : DedupState) (l : List DedupEv) (p : String × Nat)
    (hp : p ∈ st.processed) : p ∈ (runDedup st l).processed := by
  induction l generalizing st with
  | nil => exact hp
  | cons e rest ih => exact ih _ (processed_step_mono st e p hp)

theorem activeMem_of_mem (s : List (String × Nat)) (id : String) (t e : Nat)
    (hmem : (id, e) ∈ s) (ht : t < e) : activeMem s id t = true := by
  simp only [activeMem, List.any_eq_true]
  exact ⟨(id, e), hmem, by simp [ht]⟩

theorem activeMem_filter (s : List (String × Nat)) (id : String) (t : Nat) :
    activeMem s id t =
      (s.filter (fun p => p.1 == id)).any (fun p => decide (t < p.2)) := by
  induction s with
  | nil => rfl
  | cons p ps ih =>
      by_cases hp : p.1 = id
      · simp [activeMem, List.filter_cons, hp, List.any_cons, ih]
      · simp [activeMem, List.filter_cons, hp, List.any_cons, ih]

theorem procEntries_step (st : DedupState) (e : DedupEv) (id : String)
    (hne : ¬ dedupEvId e = some id) :
    (dedupStep st e).1.processed.filter (fun p => p.1 == id) =
      st.processed.filter (fun p => p.1 == id) := by
  cases e with
  | sent i t => simp [dedupStep, markSent, advanceBot_processed]
  | inbound ev =>
      rcases (processInbound_shape st ev).2.2 with hs | ⟨i, hmid, hs⟩
      · simp [dedupStep, hs]
      · have hi : ¬ i = id := fun hcon => hne (by simp [dedupEvId, hmid, hcon])
        simp only [dedupStep, hs, List.filter_cons]
        simp [hi]

theorem procEntries_run :
    ∀ (l : List DedupEv) (st : DedupState) (id : String),
      (∀ e ∈ l, ¬ dedupEvId e = some id) →
      (runDedup st l).processed.filter (fun p => p.1 == id) =
        st.processed.filter (fun p => p.1 == id)
  | [], _, _, _ => rfl
  | e :: rest, st, id, hl => by
      have he := procEntries_step st e id (hl e (by simp))
      have hr := procEntries_run rest (dedupStep st e).1 id
        (fun x hx => hl x (by simp [hx]))
      exact hr.trans he

theorem notInBot_step (st : DedupState) (e : DedupEv) (id : String)
    (hne : ¬ sentIdOf e = some id)
    (h : st.botSent.contains id = false) :
    (dedupStep st e).1.botSent.contains id = false := by
  cases e with
  | sent j t =>
      have hj : ¬ j = id := fun hcon => hne (by simp [sentIdOf, hcon])
      show (markSent st j t).botSent.contains id = false
      simp only [markSent]
      exact setAdd_contains_false_of _ j id hj (advanceBot_contains_false st t id h)
  | inbound ev =>
      rw [show (dedupStep st (DedupEv.inbound ev)).1.botSent
        = (advanceBot st ev.time).botSent from (processInbound_shape st ev).1]
      exact advanceBot_contains_false st ev.time id h

theorem notInBot_run :
    ∀ (l : List DedupEv) (st : DedupState) (id : String),
      (∀ e ∈ l, ¬ sentIdOf e = some id) →
      st.botSent.contains id = false →
      (runDedup st l).botSent.contains id = false
  | [], _, _, _, h => h
  | e :: rest, st, id, hl, h =>
      notInBot_run rest (dedupStep st e).1 id
        (fun x hx => hl x (by simp [hx]))
        (notInBot_step st e id (hl e (by simp)) h)

/-- No pending self-sent deletion timer belongs to the given id. -/
def noIdBotTimer (st : DedupState) (id : String) : Prop :=
  ∀ p ∈ st.botTimers, ¬ p.1 = id

theorem noIdBotTimer_step (st : DedupState) (e : DedupEv) (id : String)
    (hne : ¬ sentIdOf e = some id) (h : noIdBotTimer st id) :
    noIdBotTimer (dedupStep st e).1 id := by
  cases e with
  | sent j t =>
      have hj : ¬ j = id := fun hcon => hne (by simp [sentIdOf, hcon])
      intro p hp
      simp only [dedupStep, markSent] at hp
      rcases List.mem_append.mp hp with hp1 | hp1
      · exact h p (advanceBot_timers_sub st t p hp1)
      · simp only [List.mem_singleton] at hp1
        subst hp1
        simpa using hj
  | inbound ev =>
      intro p hp
      rw [show (dedupStep st (DedupEv.inbound ev)).1.botTimers
        = (advanceBot st ev.time).botTimers from (processInbound_shape st ev).2.1] at hp
      exact h p (advanceBot_timers_sub st ev.time p hp)

theorem noIdBotTimer_run :
    ∀ (l : List DedupEv) (st : DedupState) (id : String),
      (∀ e ∈ l, ¬ sentIdOf e = some id) →
      noIdBotTimer st id → noIdBotTimer (runDedup st l) id
  | [], _, _, _, h => h
  | e :: rest, st, id, hl, h =>
      noIdBotTimer_run rest (dedupStep st e).1 id
        (fun x hx => hl x (by simp [hx]))
        (noIdBotTimer_step st e id (hl e (by simp)) h)

/-- The self-sent set holds the id, and its every pending deletion timer
is the one scheduled by the mark at `ti`. -/
def invBot (st : DedupState) (id : String) (ti : Nat) : Prop :=
  st.botSent.contains id = true ∧
    ∀ p ∈ st.botTimers, p.1 = id → p.2 = ti + DEDUP_TTL

theorem invBot_step (st : DedupState) (e : DedupEv) (id : String) (ti : Nat)
    (hne : ¬ sentIdOf e = some id) (htime : evTimeOf e < ti + DEDUP_TTL)
    (h : invBot st id ti) : invBot (dedupStep st e).1 id ti := by
  have hadv : ∀ t, t < ti + DEDUP_TTL →
      (advanceBot st t).botSent.contains id = true := by
    intro t htl
    refine advanceBot_contains_true st t id h.1 ?_
    intro p hp hcon
    rw [h.2 p hp hcon]
    omega
  cases e with
  | sent j t =>
      have hj : ¬ j = id := fun hcon => hne (by simp [sentIdOf, hcon])
      constructor
      · show (markSent st j t).botSent.contains id = true
        simp only [markSent]
        exact setAdd_contains_true_of _ j id (hadv t htime)
      · intro p hp hcon
        simp only [dedupStep, markSent] at hp
        rcases List.mem_append.mp hp with hp1 | hp1
        · exact h.2 p (advanceBot_timers_sub st t p hp1) hcon
        · simp only [List.mem_singleton] at hp1
          subst hp1
          simp at hcon
          exact absurd hcon hj
  | inbound ev =>
      constructor
      · rw [show (dedupStep st (DedupEv.inbound ev)).1.botSent
          = (advanceBot st ev.time).botSent from (processInbound_shape st ev).1]
        exact hadv ev.time htime
      · intro p hp hcon
        rw [show (dedupStep st (DedupEv.inbound ev)).1.botTimers
          = (advanceBot st ev.time).botTimers from (processInbound_shape st ev).2.1] at hp
        exact h.2 p (advanceBot_timers_sub st ev.time p hp) hcon

theorem invBot_run :
    ∀ (l : List DedupEv) (st : DedupState) (id : String) (ti : Nat),
      (∀ e ∈ l, ¬ sentIdOf e = some id) →
      (∀ e ∈ l, evTimeOf e < ti + DEDUP_TTL) →
      invBot st id ti → invBot (runDedup st l) id ti
  | [], _, _, _, _, _, h => h
  | e :: rest, st, id, ti, hl, hlt, h =>
      invBot_run rest (dedupStep st e).1 id ti
        (fun x hx => hl x (by simp [hx]))
        (fun x hx => hlt x (by simp [hx]))
        (invBot_step st e id ti (hl e (by simp)) (hlt e (by simp)) h)

theorem processInbound_false_of_bot (st : DedupState) (ev : InboundEvent)
    (id : String) (hid : ev.messageId = some id)
    (hact : (advanceBot st ev.time).botSent.contains id = true) :
    (processInbound st ev).2 = false := by
  have hm3 : id ∈ (advanceBot st ev.time).botSent := by simpa using hact
  by_cases h1 : ev.upsertType = "notify"
  · by_cases h2 : ev.hasMessage = false
    · simp [processInbound, h1, h2]
    · simp [processInbound, hid, h1, h2, hm3]
  · simp [processInbound, h1]

theorem processInbound_false_of_processed (st : DedupState) (ev : InboundEvent)
    (id : String) (hid : ev.messageId = some id)
    (hact : activeMem st.processed id ev.time = true) :
    (processInbound st ev).2 = false := by
  by_cases h1 : ev.upsertType = "notify"
  · by_cases h2 : ev.hasMessage = false
    · simp [processInbound, h1, h2]
    · by_cases h3 : id ∈ (advanceBot st ev.time).botSent
      · simp [processInbound, hid, h1, h2, h3]
      · simp [processInbound, hid, h1, h2, h3, advanceBot_processed, hact]
  · simp [processInbound, h1]

theorem processInbound_delivered (st : DedupState) (ev : InboundEvent)
    (id : String) (hid : ev.messageId = some id)
    (h : (processInbound st ev).2 = true) :
    (processInbound st ev).1.processed = (id, ev.time + DEDUP_TTL) :: st.processed ∧
      (processInbound st ev).1.botSent = (advanceBot st ev.time).botSent ∧
      (processInbound st ev).1.botTimers = (advanceBot st ev.time).botTimers := by
  by_cases h1 : ev.upsertType = "notify"
  · by_cases h2 : ev.hasMessage = false
    · exfalso
      simp [processInbound, h1, h2] at h
    · by_cases h3 : id ∈ (advanceBot st ev.time).botSent
      · exfalso
        simp [processInbound, hid, h1, h2, h3] at h
      · by_cases h4 : activeMem st.processed id ev.time = true
        · exfalso
          simp [processInbound, hid, h1, h2, h3, advanceBot_processed, h4] at h
        · simp [processInbound, hid, h1, h2, h3, advanceBot_processed, h4]
  · exfalso
    simp [processInbound, h1] at h

theorem processInbound_pass (st : DedupState) (ev : InboundEvent)
    (id : String) (hid : ev.messageId = some id)
    (hn : ev.upsertType = "notify") (hm : ev.hasMessage = true)
    (hb : (advanceBot st ev.time).botSent.contains id = false)
    (hp : activeMem st.processed id ev.time = false) :
    (processInbound st ev).2 = contentOk ev := by
  have hbm : ¬ id ∈ (advanceBot st ev.time).botSent := by simpa using hb
  simp [processInbound, hid, hn, hm, hbm, advanceBot_processed, hp]

/-! ### Session-manager support lemmas -/

theorem alistGet_set_self {β : Type} (m : List (String × β)) (k : String) (v : β) :
    alistGet (alistSet m k v) k = some v := by
  induction m with
  | nil => simp [alistSet, alistGet, List.find?]
  | cons p ps ih =>
      by_cases hp : p.1 = k
      · simp [alistSet, alistGet, hp, List.find?]
      · simp only [alistSet, hp, beq_iff_eq, if_false]
        simp only [alistGet] at ih ⊢
        rw [List.find?_cons_of_neg _ (by simp [hp])]
        exact ih

theorem alistGet_erase_self {β : Type} (m : List (String × β)) (k : String) :
    alistGet (alistErase m k) k = none := by
  simp only [alistGet, alistErase]
  rw [List.find?_eq_none.mpr]
  · rfl
  · intro p hp
    have hne := (List.mem_filter.mp hp).2
    simp at hne ⊢
    exact hne

theorem deleteSessionRows_sid (st : List AuthDoc) (sid : String) :
    ∀ d ∈ deleteSessionRows st sid, ¬ d.sessionId = sid := by
  intro d hd
  have hne := (List.mem_filter.mp hd).2
  simpa using hne

theorem findRowValue_deleteSessionRows (st : List AuthDoc) (sid k : String) :
    findRowValue (deleteSessionRows st sid) sid k = none := by
  simp only [findRowValue]
  rw [List.find?_eq_none.mpr]
  · rfl
  · intro d hd
    have hne := deleteSessionRows_sid st sid d hd
    simp [authMatch]
    intro hcon
    exact absurd hcon hne

theorem createSession_fresh_of_absent (st : MState) (sid : String)
    (hs : alistGet st.sessions sid = none)
    (ha : findRowValue st.authRows sid "creds" = none) :
    (createSession st sid).freshPairing = true := by
  simp [createSession, hs, createSessionOpen, ha]

theorem onClose_401 (st : MState) (sid : String) :
    onConnectionClose st sid (some 401) =
      ({ st with
          liveConns := st.liveConns.erase sid,
          authRows := deleteSessionRows st.authRows sid,
          sessions := alistErase st.sessions sid,
          decryptCounts := alistErase st.decryptCounts sid,
          sessionDocs := setDocStatus st.sessionDocs sid "logged_out" },
        [Emission.statusEv "logged_out" sid none]) := by
  simp [onConnectionClose]

theorem onClose_replaced (st : MState) (sid : String) (c : Nat)
    (hc : c = 440 ∨ c = 428) :
    onConnectionClose st sid (some c) =
      ({ st with
          liveConns := st.liveConns.erase sid,
          authRows := deleteSessionRows st.authRows sid,
          sessions := alistErase st.sessions sid,
          decryptCounts := alistErase st.decryptCounts sid,
          scheduled := st.scheduled ++ [(sid, 5000)] },
        [Emission.statusEv "reconnecting" sid none]) := by
  rcases hc with rfl | rfl <;> simp [onConnectionClose]

theorem handleDecryptError_step (st : MState) (sid en em : String) (n : Nat)
    (he : isDecryptError en em = true)
    (hc : alistGet st.decryptCounts sid = some n) :
    handleDecryptError st sid en em =
      if MAX_DECRYPT_ERRORS ≤ n + 1 then
        { st with
          decryptCounts := alistSet (alistSet st.decryptCounts sid (n + 1)) sid 0,
          authRows :=
            st.authRows.filter (fun d => !(d.sessionId == sid && isTransientKey d.key)),
          purgeLog := st.purgeLog ++ [sid] }
      else { st with decryptCounts := alistSet st.decryptCounts sid (n + 1) } := by
  simp [handleDecryptError, he, hc, clearCorruptedPreKeys]

theorem iterDecrypt_below (st : MState) (sid en em : String)
    (he : isDecryptError en em = true)
    (h0 : alistGet st.decryptCounts sid = some 0) :
    ∀ n, n ≤ 4 →
      alistGet (iterDecryptErrors st sid en em n).decryptCounts sid = some n ∧
      (iterDecryptErrors st sid en em n).purgeLog = st.purgeLog ∧
      (iterDecryptErrors st sid en em n).authRows = st.authRows := by
  intro n
  induction n with
  | zero => exact fun _ => ⟨h0, rfl, rfl⟩
  | succ m ih =>
      intro hm
      have prev := ih (by omega)
      simp only [iterDecryptErrors]
      rw [handleDecryptError_step _ sid en em m he prev.1]
      rw [if_neg (by simp [MAX_DECRYPT_ERRORS]; omega)]
      exact ⟨alistGet_set_self _ sid (m + 1), prev.2.1, prev.2.2⟩

theorem setDocStatus_length (docs : List SessionDoc) (sid s : String) :
    (setDocStatus docs sid s).length = docs.length := by
  induction docs with
  | nil => rfl
  | cons d ds ih =>
      by_cases hd : d.sessionId = sid
      · simp [setDocStatus, hd]
      · simp [setDocStatus, hd, ih]

theorem docsFor_setDocStatus (docs : List SessionDoc) (sid s : String)
    (d : SessionDoc) (hd : docsFor docs sid = [d]) :
    docsFor (setDocStatus docs sid s) sid = [{ d with status := s }] := by
  induction docs with
  | nil => simp [docsFor] at hd
  | cons x xs ih =>
      by_cases hx : x.sessionId = sid
      · simp only [docsFor, List.filter_cons] at hd
        rw [if_pos (by simp [hx])] at hd
        simp only [List.cons.injEq] at hd
        obtain ⟨heq, hnil⟩ := hd
        subst heq
        simp only [setDocStatus]
        rw [if_pos (by simp [hx])]
        simp only [docsFor, List.filter_cons]
        rw [if_pos (by simp [hx]), hnil]
      · simp only [docsFor, List.filter_cons] at hd
        simp only [setDocStatus]
        rw [if_neg (by simp [hx])]
        simp only [docsFor, List.filter_cons]
        rw [if_neg (by simp [hx])] at hd ⊢
        exact ih hd

theorem countConn_erase (m : List (String × SessionInfo)) (sid : String)
    (info : SessionInfo) (hn : (m.map Prod.fst).Nodup)
    (hget : alistGet m sid = some info) :
    (alistErase m sid).countP (fun p => decide (p.2.status = SessStatus.connected)) +
        (if info.status = SessStatus.connected then 1 else 0) =
      m.countP (fun p => decide (p.2.status = SessStatus.connected)) := by
  induction m with
  | nil => simp [alistGet] at hget
  | cons p ps ih =>
      by_cases hp : p.1 = sid
      · have hinfo : p.2 = info := by
          simp only [alistGet] at hget
          rw [List.find?_cons_of_pos _ (by simp [hp])] at hget
          simpa using hget
        have hps : ∀ q ∈ ps, ¬ q.1 = sid := by
          intro q hq hcon
          simp only [List.map_cons, List.nodup_cons] at hn
          exact hn.1 (List.mem_map.mpr ⟨q, hq, hcon.trans hp.symm⟩)
        have herase : alistErase (p :: ps) sid = ps := by
          simp only [alistErase, List.filter_cons]
          rw [if_neg (by simp [hp])]
          exact List.filter_eq_self.mpr (fun q hq => by simp [hps q hq])
        rw [herase, List.countP_cons, hinfo]
        by_cases hconn : info.status = SessStatus.connected
        · simp [hconn]
        · simp [hconn]
      · have hget1 : alistGet ps sid = some info := by
          simp only [alistGet] at hget ⊢
          rw [List.find?_cons_of_neg _ (by simp [hp])] at hget
          exact hget
        have hn1 : (ps.map Prod.fst).Nodup := by
          simp only [List.map_cons, List.nodup_cons] at hn
          exact hn.2
        have herase : alistErase (p :: ps) sid = p :: alistErase ps sid := by
          simp only [alistErase, List.filter_cons]
          rw [if_pos (by simp [hp])]
        rw [herase, List.countP_cons, List.countP_cons]
        have := ih hn1 hget1
        omega

theorem setKeys_lookup_of_mem (sid : String) :
    ∀ (entries : List (String × String × JVal)) (st : List AuthDoc)
      (cat kid : String) (v : JVal),
      uniqKeys st →
      (cat, kid, v) ∈ entries →
      (entries.map (fun e => derivedKey e.1 e.2.1)).Nodup →
      findRowValue (setKeys st sid entries) sid (derivedKey cat kid) =
        if jsTruthy v then some (serializeVal v) else none
  | [], _, _, _, _, _, hmem, _ => absurd hmem (by simp)
  | (c0, k0, v0) :: rest, st, cat, kid, v, hu, hmem, hnd => by
      rcases List.mem_cons.mp hmem with heq | hmem1
      · have hc : cat = c0 := congrArg Prod.fst heq
        have hk : kid = k0 := congrArg Prod.fst (congrArg Prod.snd heq)
        have hv : v = v0 := congrArg Prod.snd (congrArg Prod.snd heq)
        subst hc
        subst hk
        subst hv
        simp only [setKeys]
        rw [findRowValue_setKeys_frame sid (derivedKey cat kid) rest _ ?hrest]
        case hrest =>
          intro e he hcon
          simp only [List.map_cons, List.nodup_cons] at hnd
          exact hnd.1 (by
            rw [← hcon]
            exact List.mem_map.mpr ⟨e, he, rfl⟩)
        by_cases htr : jsTruthy v = true
        · simp only [htr, if_true]
          exact findRowValue_writeData_self st sid (derivedKey cat kid) v
        · simp only [htr, Bool.false_eq_true, if_false]
          exact findRowValue_removeData_self st sid (derivedKey cat kid) hu
      · simp only [setKeys]
        have hu1 : uniqKeys
            (if jsTruthy v0 = true then writeData st sid (derivedKey c0 k0) v0
             else removeData st sid (derivedKey c0 k0)) := by
          by_cases htr : jsTruthy v0 = true
          · simp only [htr, if_true]
            exact uniqKeys_writeData st sid (derivedKey c0 k0) v0 hu
          · simp only [htr, Bool.false_eq_true, if_false]
            exact uniqKeys_removeData st sid (derivedKey c0 k0) hu
        have hnd1 : (rest.map (fun e => derivedKey e.1 e.2.1)).Nodup := by
          simp only [List.map_cons, List.nodup_cons] at hnd
          exact hnd.2
        exact setKeys_lookup_of_mem sid rest _ cat kid v hu1 hmem1 hnd1

/-! ### Claim theorems -/

/-- C1: for a session whose decrypt-error counter is 0 and with no purges
performed yet, a run of fewer than 5 consecutive classified decryption
errors causes no credential purge; at the 5th error exactly one purge of
transient key material is invoked for that session and the counter is
reset to 0. -/
theorem decrypt_error_threshold_purge (st : MState) (sid en em : String)
    (he : isDecryptError en em = true)
    (h0 : alistGet st.decryptCounts sid = some 0)
    (hp : st.purgeLog = []) :
    (∀ n, n < 5 → (iterDecryptErrors st sid en em n).purgeLog = []) ∧
      (iterDecryptErrors st sid en em 5).purgeLog = [sid] ∧
      alistGet (iterDecryptErrors st sid en em 5).decryptCounts sid = some 0 := by
  have h4 := iterDecrypt_below st sid en em he h0 4 (by omega)
  refine ⟨fun n hn => ?_, ?_, ?_⟩
  · rw [(iterDecrypt_below st sid en em he h0 n (by omega)).2.1, hp]
  · show (handleDecryptError (iterDecryptErrors st sid en em 4) sid en em).purgeLog = [sid]
    rw [handleDecryptError_step _ sid en em 4 he h4.1]
    rw [if_pos (by simp [MAX_DECRYPT_ERRORS])]
    rw [show ({ iterDecryptErrors st sid en em 4 with
        decryptCounts := alistSet (alistSet (iterDecryptErrors st sid en em 4).decryptCounts sid 5) sid 0,
        authRows := (iterDecryptErrors st sid en em 4).authRows.filter
          (fun d => !(d.sessionId == sid && isTransientKey d.key)),
        purgeLog := (iterDecryptErrors st sid en em 4).purgeLog ++ [sid] } : MState).purgeLog
      = (iterDecryptErrors st sid en em 4).purgeLog ++ [sid] from rfl]
    rw [h4.2.1, hp]
    rfl
  · show alistGet (handleDecryptError (iterDecryptErrors st sid en em 4) sid en em).decryptCounts sid = some 0
    rw [handleDecryptError_step _ sid en em 4 he h4.1]
    rw [if_pos (by simp [MAX_DECRYPT_ERRORS])]
    exact alistGet_set_self _ sid 0

/-- C1 witness: a concrete session at counter 0; after 3 classified errors
no purge has happened, after 5 exactly one purge for the session and the
counter is 0 again. -/
theorem decrypt_error_threshold_purge_witness :
    (iterDecryptErrors { emptyM with decryptCounts := [("s1", 0)] }
        "s1" "PreKeyError" "" 3).purgeLog = [] ∧
      (iterDecryptErrors { emptyM with decryptCounts := [("s1", 0)] }
        "s1" "PreKeyError" "" 5).purgeLog = ["s1"] ∧
      alistGet (iterDecryptErrors { emptyM with decryptCounts := [("s1", 0)] }
        "s1" "PreKeyError" "" 5).decryptCounts "s1" = some 0 :=
  ⟨(decrypt_error_threshold_purge _ "s1" "PreKeyError" ""
      (by decide) (by decide) rfl).1 3 (by omega),
    (decrypt_error_threshold_purge _ "s1" "PreKeyError" ""
      (by decide) (by decide) rfl).2⟩

/-- C2 counterexample: two back-to-back create requests for the same
session id, the second arriving while the first connection is still in
the connecting state, leave two live Connection objects for that id: the
guard in `createSession` only short-circuits when the existing status is
connected, and the first socket is never closed.  This falsifies the
at-most-one-live-Connection invariant as stated. -/
theorem second_create_while_connecting_counterexample :
    ((createSession (createSession emptyM "s1").state "s1").state.liveConns.count
        "s1" = 2) ∧
      ¬ ((createSession (createSession emptyM "s1").state "s1").state.liveConns.count
        "s1" ≤ 1) := by
  constructor
  · decide
  · decide

/-- C2 amended: a create request for a sessionId whose status is already
Connected emits the existing status (with its account identifier) to the
caller, opens no new Connection, and leaves the whole manager state
unchanged; the at-most-one-live-Connection invariant holds in this case,
but not for a second create issued while the session is still
Connecting. -/
theorem create_idempotent_when_connected (st : MState) (sid : String)
    (info : SessionInfo) (hs : alistGet st.sessions sid = some info)
    (hc : info.status = SessStatus.connected) :
    createSession st sid =
      { state := st,
        emits := [Emission.statusEv "connected" sid info.phoneNumber],
        opened := 0,
        freshPairing := false } := by
  simp [createSession, hs, hc]

/-- C2 witness: a concrete manager holding one connected session; a
create request for it is a pure status re-emission. -/
theorem create_idempotent_when_connected_witness :
    createSession
        { emptyM with
          sessions := [("s1", ⟨"s1", SessStatus.connected, some "91555", some 7⟩)] }
        "s1" =
      { state :=
          { emptyM with
            sessions := [("s1", ⟨"s1", SessStatus.connected, some "91555", some 7⟩)] },
        emits := [Emission.statusEv "connected" "s1" (some "91555")],
        opened := 0,
        freshPairing := false } :=
  create_idempotent_when_connected _ "s1"
    ⟨"s1", SessStatus.connected, some "91555", some 7⟩ (by decide) rfl

/-- C3 counterexample: an id is recorded in the self-sent set at time 0;
an inbound event carrying the same id arriving at 300000 ms (the 5-minute
deletion timer has fired) is delivered, so a marked id is not suppressed
forever. -/
theorem marked_sent_redelivered_after_ttl_counterexample :
    (processInbound (markSent dedupInit "m1" 0)
        ⟨"notify", true, some "m1", some "91555@s.whatsapp.net", true, "hello",
          300000⟩).2 = true := by
  decide

/-- C3 amended: for every message id recorded in the self-sent set when
the Connection reports a message as sent, an inbound event carrying that
id is never delivered to the message handler while the deletion timer of
that mark is still pending: if the id is marked at `ti`, was not marked
before and is not marked again, and every later pipeline event up to and
including the redelivery is handled before `ti` plus the 5-minute
retention window, the redelivery is suppressed.  After the timer fires
the id can be delivered again, and a re-marked id loses suppression as
soon as the earliest mark's timer fires, because every mark schedules an
unconditional deletion of the single Set entry. -/
theorem marked_sent_suppressed_within_ttl (pre mid : List DedupEv)
    (id : String) (ti : Nat) (ev : InboundEvent)
    (hid : ev.messageId = some id)
    (hpre : ∀ e ∈ pre, ¬ sentIdOf e = some id)
    (hmid : ∀ e ∈ mid, ¬ sentIdOf e = some id)
    (hmidt : ∀ e ∈ mid, evTimeOf e < ti + DEDUP_TTL)
    (ht : ev.time < ti + DEDUP_TTL) :
    (dedupStep (runDedup dedupInit (pre ++ DedupEv.sent id ti :: mid))
        (DedupEv.inbound ev)).2 = false := by
  have hpreT : noIdBotTimer (runDedup dedupInit pre) id :=
    noIdBotTimer_run pre dedupInit id hpre (by
      intro p hp
      simp [dedupInit] at hp)
  have hmark : invBot (dedupStep (runDedup dedupInit pre) (DedupEv.sent id ti)).1
      id ti := by
    constructor
    · show (markSent (runDedup dedupInit pre) id ti).botSent.contains id = true
      simp only [markSent]
      exact setAdd_contains_self _ id
    · intro p hp hcon
      simp only [dedupStep, markSent] at hp
      rcases List.mem_append.mp hp with hp1 | hp1
      · exact absurd hcon (hpreT p (advanceBot_timers_sub _ ti p hp1))
      · simp only [List.mem_singleton] at hp1
        subst hp1
        rfl
  have hinv : invBot
      (runDedup (dedupStep (runDedup dedupInit pre) (DedupEv.sent id ti)).1 mid)
      id ti :=
    invBot_run mid _ id ti hmid hmidt hmark
  rw [runDedup_append]
  show (dedupStep
      (runDedup (runDedup dedupInit pre) (DedupEv.sent id ti :: mid))
      (DedupEv.inbound ev)).2 = false
  simp only [runDedup]
  refine processInbound_false_of_bot _ ev id hid ?_
  refine advanceBot_contains_true _ ev.time id hinv.1 ?_
  intro p hp hcon
  rw [hinv.2 p hp hcon]
  omega

/-- C3 witness: a concrete trace in which an id marked sent once at time
0 is redelivered at time 100 and suppressed. -/
theorem marked_sent_suppressed_within_ttl_witness :
    (dedupStep (runDedup dedupInit ([] ++ DedupEv.sent "m1" 0 :: []))
        (DedupEv.inbound
          ⟨"notify", true, some "m1", some "91555@s.whatsapp.net", true, "hi",
            100⟩)).2 = false :=
  marked_sent_suppressed_within_ttl [] [] "m1" 0 _ rfl
    (by simp) (by simp) (by simp) (by decide)

/-- C4 counterexample: the purge of session `s1` deletes a row whose key
starts with `app-state-sync-version-`, although that key starts with none
of the three prefix families the claim allows (pre-key material, session
records, sender-key caches). -/
theorem purge_deletes_app_state_sync_counterexample :
    (clearCorruptedPreKeys
        { emptyM with
          authRows := [⟨"s1", "app-state-sync-version-critical", JVal.jstr "v"⟩] }
        "s1").authRows = [] ∧
      (["pre-key-", "session-", "sender-key-"].any
        (fun p => strBegins p "app-state-sync-version-critical")) = false := by
  constructor
  · decide
  · decide

/-- C4 amended: the failure-recovery purge deletes exactly the rows of
the given sessionId whose key starts with one of the five alternatives of
the purge regex (`pre-key-`, `sender-key-`, `session-`,
`sender-key-memory-`, `app-state-sync-version-`): a row survives iff it
was present and is not a transient-key row of that session, and in
particular the `creds` row is never deleted and rows of other sessions or
with non-matching keys are unchanged. -/
theorem purge_exactly_transient_rows (st : MState) (sid : String) :
    (∀ d : AuthDoc,
        d ∈ (clearCorruptedPreKeys st sid).authRows ↔
          d ∈ st.authRows ∧ ¬ (d.sessionId = sid ∧ isTransientKey d.key = true)) ∧
      (∀ d ∈ st.authRows, d.key = "creds" →
        d ∈ (clearCorruptedPreKeys st sid).authRows) := by
  have hchar : ∀ d : AuthDoc,
      d ∈ (clearCorruptedPreKeys st sid).authRows ↔
        d ∈ st.authRows ∧ ¬ (d.sessionId = sid ∧ isTransientKey d.key = true) := by
    intro d
    by_cases hsid : d.sessionId = sid
    · by_cases htr : isTransientKey d.key = true
      · simp [clearCorruptedPreKeys, List.mem_filter, hsid, htr]
      · simp [clearCorruptedPreKeys, List.mem_filter, hsid, htr]
    · simp [clearCorruptedPreKeys, List.mem_filter, hsid]
  refine ⟨hchar, fun d hd hk => (hchar d).mpr ⟨hd, fun hcon => ?_⟩⟩
  rw [hk] at hcon
  exact absurd hcon.2 (by decide)

/-- C4 witness: the `creds` row of the purged session survives the purge. -/
theorem purge_exactly_transient_rows_witness :
    (⟨"s1", "creds", JVal.jnull⟩ : AuthDoc) ∈
      (clearCorruptedPreKeys
        { emptyM with authRows := [⟨"s1", "creds", JVal.jnull⟩] } "s1").authRows :=
  (purge_exactly_transient_rows
      { emptyM with authRows := [⟨"s1", "creds", JVal.jnull⟩] } "s1").2
    ⟨"s1", "creds", JVal.jnull⟩ (by simp) rfl

/-- C5: when a Connected session's connection closes with the logged-out
status code (401), every credential row of that session is deleted, the
session leaves the in-memory table, the caller receives the terminal
logged-out status event (and no error event), no reconnect is scheduled,
and a subsequent create for the id seeds a fresh identity, i.e. behaves
as first-time pairing. -/
theorem logout_close_cleanup (st : MState) (sid : String) (info : SessionInfo)
    (hs : alistGet st.sessions sid = some info)
    (hc : info.status = SessStatus.connected) :
    (∀ d ∈ (onConnectionClose st sid (some 401)).1.authRows, ¬ d.sessionId = sid) ∧
      alistGet (onConnectionClose st sid (some 401)).1.sessions sid = none ∧
      (onConnectionClose st sid (some 401)).2 =
        [Emission.statusEv "logged_out" sid none] ∧
      (onConnectionClose st sid (some 401)).1.scheduled = st.scheduled ∧
      (createSession (onConnectionClose st sid (some 401)).1 sid).freshPairing
        = true := by
  rw [onClose_401]
  refine ⟨?_, ?_, rfl, rfl, ?_⟩
  · exact deleteSessionRows_sid st.authRows sid
  · exact alistGet_erase_self st.sessions sid
  · exact createSession_fresh_of_absent _ sid (alistGet_erase_self _ _)
      (findRowValue_deleteSessionRows _ _ _)

/-- C5 witness: a concrete connected session with stored credentials; the
logged-out close removes it, reports the terminal status, schedules
nothing, and the next create is first-time pairing. -/
theorem logout_close_cleanup_witness :
    alistGet (onConnectionClose
        { emptyM with
          sessions := [("s1", ⟨"s1", SessStatus.connected, some "91555", some 7⟩)],
          authRows := [⟨"s1", "creds", JVal.jnull⟩],
          liveConns := ["s1"] }
        "s1" (some 401)).1.sessions "s1" = none ∧
      (onConnectionClose
        { emptyM with
          sessions := [("s1", ⟨"s1", SessStatus.connected, some "91555", some 7⟩)],
          authRows := [⟨"s1", "creds", JVal.jnull⟩],
          liveConns := ["s1"] }
        "s1" (some 401)).2 = [Emission.statusEv "logged_out" "s1" none] ∧
      (onConnectionClose
        { emptyM with
          sessions := [("s1", ⟨"s1", SessStatus.connected, some "91555", some 7⟩)],
          authRows := [⟨"s1", "creds", JVal.jnull⟩],
          liveConns := ["s1"] }
        "s1" (some 401)).1.scheduled = [] ∧
      (createSession (onConnectionClose
        { emptyM with
          sessions := [("s1", ⟨"s1", SessStatus.connected, some "91555", some 7⟩)],
          authRows := [⟨"s1", "creds", JVal.jnull⟩],
          liveConns := ["s1"] }
        "s1" (some 401)).1 "s1").freshPairing = true :=
  (logout_close_cleanup _ "s1"
    ⟨"s1", SessStatus.connected, some "91555", some 7⟩ (by decide) rfl).2

/-- C6: when a Connected session's connection closes with a
session-replaced status code (440 or 428), every credential row of the
session is deleted so the next pairing is fresh, the caller is told the
session is reconnecting (a status event, not an error), and re-creation
through `createSession` is scheduled after the fixed 5000 ms delay. -/
theorem replaced_close_forces_repairing (st : MState) (sid : String)
    (info : SessionInfo) (c : Nat)
    (hs : alistGet st.sessions sid = some info)
    (hc : info.status = SessStatus.connected)
    (hcode : c = 440 ∨ c = 428) :
    (∀ d ∈ (onConnectionClose st sid (some c)).1.authRows, ¬ d.sessionId = sid) ∧
      (onConnectionClose st sid (some c)).2 =
        [Emission.statusEv "reconnecting" sid none] ∧
      (onConnectionClose st sid (some c)).1.scheduled =
        st.scheduled ++ [(sid, 5000)] ∧
      (createSession (onConnectionClose st sid (some c)).1 sid).freshPairing
        = true := by
  rw [onClose_replaced st sid c hcode]
  exact ⟨deleteSessionRows_sid st.authRows sid, rfl, rfl,
    createSession_fresh_of_absent _ sid (alistGet_erase_self _ _)
      (findRowValue_deleteSessionRows _ _ _)⟩

/-- C6 witness: a concrete connected session closed with code 440 is told
it is reconnecting, a retry is scheduled after 5000 ms, and the next
create is first-time pairing. -/
theorem replaced_close_forces_repairing_witness :
    (onConnectionClose
        { emptyM with
          sessions := [("s1", ⟨"s1", SessStatus.connected, some "91555", some 7⟩)],
          authRows := [⟨"s1", "creds", JVal.jnull⟩],
          liveConns := ["s1"] }
        "s1" (some 440)).2 = [Emission.statusEv "reconnecting" "s1" none] ∧
      (onConnectionClose
        { emptyM with
          sessions := [("s1", ⟨"s1", SessStatus.connected, some "91555", some 7⟩)],
          authRows := [⟨"s1", "creds", JVal.jnull⟩],
          liveConns := ["s1"] }
        "s1" (some 440)).1.scheduled = [("s1", 5000)] ∧
      (createSession (onConnectionClose
        { emptyM with
          sessions := [("s1", ⟨"s1", SessStatus.connected, some "91555", some 7⟩)],
          authRows := [⟨"s1", "creds", JVal.jnull⟩],
          liveConns := ["s1"] }
        "s1" (some 440)).1 "s1").freshPairing = true :=
  (replaced_close_forces_repairing _ "s1"
    ⟨"s1", SessStatus.connected, some "91555", some 7⟩ 440 (by decide) rfl
    (Or.inl rfl)).2

/-- C7: an id delivered to the handler once is suppressed on any
redelivery within the 5-minute retention window, whatever other pipeline
traffic happens in between; and once the window has elapsed, a redelivery
of the same id (with no interfering events carrying that id) is accepted
again. -/
theorem inbound_dedup_ttl_window (st0 : DedupState) (pre mid : List DedupEv)
    (e1 e2 : InboundEvent) (id : String)
    (hid1 : e1.messageId = some id) (hid2 : e2.messageId = some id) :
    ((dedupStep (runDedup st0 pre) (DedupEv.inbound e1)).2 = true →
      e2.time < e1.time + DEDUP_TTL →
      (dedupStep
          (runDedup (dedupStep (runDedup st0 pre) (DedupEv.inbound e1)).1 mid)
          (DedupEv.inbound e2)).2 = false) ∧
    (st0 = dedupInit → pre = [] →
      (∀ e ∈ mid, ¬ dedupEvId e = some id) →
      e1.time + DEDUP_TTL ≤ e2.time →
      (dedupStep (runDedup st0 pre) (DedupEv.inbound e1)).2 = true →
      e2.upsertType = "notify" → e2.hasMessage = true → contentOk e2 = true →
      (dedupStep
          (runDedup (dedupStep (runDedup st0 pre) (DedupEv.inbound e1)).1 mid)
          (DedupEv.inbound e2)).2 = true) := by
  constructor
  · intro hdel ht
    have hproc := (processInbound_delivered (runDedup st0 pre) e1 id hid1 hdel).1
    have hmem : (id, e1.time + DEDUP_TTL) ∈
        (dedupStep (runDedup st0 pre) (DedupEv.inbound e1)).1.processed := by
      show (id, e1.time + DEDUP_TTL) ∈
        (processInbound (runDedup st0 pre) e1).1.processed
      rw [hproc]
      exact List.mem_cons_self _ _
    have hmem2 := processed_run_mono _ mid _ hmem
    exact processInbound_false_of_processed _ e2 id hid2
      (activeMem_of_mem _ id e2.time _ hmem2 ht)
  · intro h0 hpre hmid hge hdel hn hm hco
    subst h0
    subst hpre
    have hB := processInbound_delivered (runDedup dedupInit []) e1 id hid1 hdel
    have hmidS : ∀ e ∈ mid, ¬ sentIdOf e = some id := by
      intro e he
      cases e with
      | sent j t => exact hmid _ he
      | inbound ev3 => simp [sentIdOf]
    have hBbot : (dedupStep (runDedup dedupInit [])
        (DedupEv.inbound e1)).1.botSent.contains id = false := by
      rw [show (dedupStep (runDedup dedupInit []) (DedupEv.inbound e1)).1.botSent
        = (advanceBot (runDedup dedupInit []) e1.time).botSent from hB.2.1]
      rfl
    have hCbot := notInBot_run mid _ id hmidS hBbot
    have hCproc := procEntries_run mid
      (dedupStep (runDedup dedupInit []) (DedupEv.inbound e1)).1 id hmid
    have hproc2 : activeMem
        (runDedup (dedupStep (runDedup dedupInit []) (DedupEv.inbound e1)).1 mid).processed
        id e2.time = false := by
      rw [activeMem_filter, hCproc]
      rw [show (dedupStep (runDedup dedupInit []) (DedupEv.inbound e1)).1.processed
        = (id, e1.time + DEDUP_TTL) :: (runDedup dedupInit []).processed from hB.1]
      simp [runDedup, dedupInit, List.filter_cons]
      omega
    have hpass := processInbound_pass
      (runDedup (dedupStep (runDedup dedupInit []) (DedupEv.inbound e1)).1 mid)
      e2 id hid2 hn hm
      (advanceBot_contains_false _ e2.time id hCbot) hproc2
    exact hpass.trans hco

/-- C7 witness: a concrete id delivered at time 0 and redelivered at
exactly the 5-minute boundary, when its timer has fired, is accepted
again. -/
theorem inbound_dedup_ttl_window_witness :
    (dedupStep
        (runDedup (dedupStep (runDedup dedupInit [])
          (DedupEv.inbound
            ⟨"notify", true, some "m1", some "91555@s.whatsapp.net", true, "hi", 0⟩)).1
          [])
        (DedupEv.inbound
          ⟨"notify", true, some "m1", some "91555@s.whatsapp.net", true, "hi",
            300000⟩)).2 = true :=
  (inbound_dedup_ttl_window dedupInit [] []
      ⟨"notify", true, some "m1", some "91555@s.whatsapp.net", true, "hi", 0⟩
      ⟨"notify", true, some "m1", some "91555@s.whatsapp.net", true, "hi", 300000⟩
      "m1" rfl rfl).2
    rfl rfl (by simp) (by decide) (by decide) rfl rfl (by decide)

/-- C8 counterexample: a plain object that spoofs the serialized-Buffer
tag shape (`type: 'Buffer'` with a string `data` field) is not returned
unchanged by a write/read round-trip: the replacer canonicalizes it at
write time, reading the string `"AAAA"` as its UTF-8 bytes and storing
them as base64 (`"QUFBQQ=="`), and the reviver then returns the byte
buffer `[65, 65, 65, 65]` instead of the original object, so the
round-trip is not lossless for every value. -/
theorem buffer_tag_spoof_roundtrip_counterexample :
    readData
        (writeData []
          "s1" "app-state-sync-key-1"
          (JVal.jobj (JObj.cons "type" (JVal.jstr "Buffer")
            (JObj.cons "data" (JVal.jstr "AAAA") JObj.nil))))
        "s1" "app-state-sync-key-1" = some (JVal.jbuf [65, 65, 65, 65]) ∧
      ¬ readData
          (writeData []
            "s1" "app-state-sync-key-1"
            (JVal.jobj (JObj.cons "type" (JVal.jstr "Buffer")
              (JObj.cons "data" (JVal.jstr "AAAA") JObj.nil))))
          "s1" "app-state-sync-key-1"
        = some (JVal.jobj (JObj.cons "type" (JVal.jstr "Buffer")
            (JObj.cons "data" (JVal.jstr "AAAA") JObj.nil))) := by
  constructor
  · decide
  · decide

/-- C8 amended: for every buffer-safe value — genuine byte buffers (bytes
below 256) embedded anywhere, and no plain object spoofing the
serialized-Buffer tag shape — reading the key after writing it returns a
value equal to the one written, and a second write to the same
`(sessionId, key)` overwrites the row rather than creating a duplicate. -/
theorem credential_write_read_roundtrip_upsert (st : List AuthDoc)
    (sid k : String) (v1 v2 : JVal) (h2 : bufferSafe v2 = true) :
    readData (writeData st sid k v2) sid k = some v2 ∧
      countRows (writeData (writeData st sid k v1) sid k v2) sid k =
        countRows (writeData st sid k v1) sid k := by
  constructor
  · rw [readData_writeData_self, reviveVal_serializeVal v2 h2]
  · rw [countRows_writeData, countRows_writeData]
    by_cases hc : countRows st sid k = 0 <;> simp [hc]

/-- C8 witness: a structured value embedding a genuine byte buffer
round-trips losslessly through the store from the empty collection, and
the repeated write keeps a single row. -/
theorem credential_write_read_roundtrip_upsert_witness :
    readData
        (writeData [] "s1" "pre-key-1"
          (JVal.jobj (JObj.cons "keyData" (JVal.jbuf [1, 255, 0]) JObj.nil)))
        "s1" "pre-key-1"
      = some (JVal.jobj (JObj.cons "keyData" (JVal.jbuf [1, 255, 0]) JObj.nil)) ∧
      countRows
        (writeData (writeData [] "s1" "pre-key-1" (JVal.jint 1)) "s1" "pre-key-1"
          (JVal.jobj (JObj.cons "keyData" (JVal.jbuf [1, 255, 0]) JObj.nil)))
        "s1" "pre-key-1"
      = countRows (writeData [] "s1" "pre-key-1" (JVal.jint 1)) "s1" "pre-key-1" :=
  ⟨(credential_write_read_roundtrip_upsert [] "s1" "pre-key-1" (JVal.jint 1)
      (JVal.jobj (JObj.cons "keyData" (JVal.jbuf [1, 255, 0]) JObj.nil))
      (by decide)).1,
    (credential_write_read_roundtrip_upsert [] "s1" "pre-key-1" (JVal.jint 1)
      (JVal.jobj (JObj.cons "keyData" (JVal.jbuf [1, 255, 0]) JObj.nil))
      (by decide)).2⟩

/-- C9: after a Connected session's logged-out close, its session
metadata document remains in the persisted collection with status
`logged_out` instead of being deleted, so `getSessionStats().total` still
counts it, while the session leaves the in-memory table and
`getActiveSessionCount()` — which counts only in-memory sessions in
connected status — drops by exactly one. -/
theorem logout_doc_retained_in_stats (st : MState) (sid : String)
    (info : SessionInfo) (d : SessionDoc)
    (hs : alistGet st.sessions sid = some info)
    (hc : info.status = SessStatus.connected)
    (hd : docsFor st.sessionDocs sid = [d])
    (hn : (st.sessions.map Prod.fst).Nodup) :
    (getSessionStats (onConnectionClose st sid (some 401)).1).total =
        (getSessionStats st).total ∧
      docsFor (onConnectionClose st sid (some 401)).1.sessionDocs sid =
        [{ d with status := "logged_out" }] ∧
      alistGet (onConnectionClose st sid (some 401)).1.sessions sid = none ∧
      getActiveSessionCount (onConnectionClose st sid (some 401)).1 + 1 =
        getActiveSessionCount st := by
  rw [onClose_401]
  refine ⟨?_, ?_, alistGet_erase_self _ _, ?_⟩
  · show (setDocStatus st.sessionDocs sid "logged_out").length =
      st.sessionDocs.length
    exact setDocStatus_length _ _ _
  · exact docsFor_setDocStatus _ sid _ d hd
  · show (alistErase st.sessions sid).countP
        (fun p => decide (p.2.status = SessStatus.connected)) + 1 =
      st.sessions.countP (fun p => decide (p.2.status = SessStatus.connected))
    have hcount := countConn_erase st.sessions sid info hn hs
    rw [hc] at hcount
    simpa using hcount

/-- C9 witness: a concrete connected session with its persisted document;
after the logged-out close the document survives with status logged_out,
the total stays 1, and the active count drops from 1 to 0. -/
theorem logout_doc_retained_in_stats_witness :
    (getSessionStats (onConnectionClose
        { emptyM with
          sessions := [("s1", ⟨"s1", SessStatus.connected, some "91555", some 7⟩)],
          sessionDocs := [⟨"s1", some "91555", "connected", 3, 7, false⟩] }
        "s1" (some 401)).1).total =
      (getSessionStats
        { emptyM with
          sessions := [("s1", ⟨"s1", SessStatus.connected, some "91555", some 7⟩)],
          sessionDocs := [⟨"s1", some "91555", "connected", 3, 7, false⟩] }).total ∧
      docsFor (onConnectionClose
        { emptyM with
          sessions := [("s1", ⟨"s1", SessStatus.connected, some "91555", some 7⟩)],
          sessionDocs := [⟨"s1", some "91555", "connected", 3, 7, false⟩] }
        "s1" (some 401)).1.sessionDocs "s1" =
        [⟨"s1", some "91555", "logged_out", 3, 7, false⟩] ∧
      alistGet (onConnectionClose
        { emptyM with
          sessions := [("s1", ⟨"s1", SessStatus.connected, some "91555", some 7⟩)],
          sessionDocs := [⟨"s1", some "91555", "connected", 3, 7, false⟩] }
        "s1" (some 401)).1.sessions "s1" = none ∧
      getActiveSessionCount (onConnectionClose
        { emptyM with
          sessions := [("s1", ⟨"s1", SessStatus.connected, some "91555", some 7⟩)],
          sessionDocs := [⟨"s1", some "91555", "connected", 3, 7, false⟩] }
        "s1" (some 401)).1 + 1 =
      getActiveSessionCount
        { emptyM with
          sessions := [("s1", ⟨"s1", SessStatus.connected, some "91555", some 7⟩)],
          sessionDocs := [⟨"s1", some "91555", "connected", 3, 7, false⟩] } :=
  logout_doc_retained_in_stats _ "s1"
    ⟨"s1", SessStatus.connected, some "91555", some 7⟩
    ⟨"s1", some "91555", "connected", 3, 7, false⟩
    (by decide) rfl (by decide) (by decide)

/-- C10: in the credential store's bulk key-set operation over pairwise
distinct `(category, id)` keys, a falsy value (such as null) deletes the
row keyed `category-id` instead of storing the falsy value, and a truthy
value is upserted as that row. -/
theorem keys_set_falsy_deletes_truthy_upserts (st : List AuthDoc)
    (sid : String) (entries : List (String × String × JVal))
    (cat kid : String) (v : JVal)
    (hu : uniqKeys st) (hmem : (cat, kid, v) ∈ entries)
    (hnd : (entries.map (fun e => derivedKey e.1 e.2.1)).Nodup) :
    findRowValue (setKeys st sid entries) sid (derivedKey cat kid) =
      if jsTruthy v then some (serializeVal v) else none :=
  setKeys_lookup_of_mem sid entries st cat kid v hu hmem hnd

/-- C10 witness: a bulk set with one truthy and one null entry leaves the
truthy entry stored under `pre-key-7` and no row under `session-x`. -/
theorem keys_set_falsy_deletes_truthy_upserts_witness :
    findRowValue
        (setKeys [] "s1"
          [("pre-key", "7", JVal.jobj (JObj.cons "pub" (JVal.jbuf [5]) JObj.nil)),
            ("session", "x", JVal.jnull)])
        "s1" (derivedKey "session" "x") = none ∧
      findRowValue
        (setKeys [] "s1"
          [("pre-key", "7", JVal.jobj (JObj.cons "pub" (JVal.jbuf [5]) JObj.nil)),
            ("session", "x", JVal.jnull)])
        "s1" (derivedKey "pre-key" "7") =
        some (serializeVal
          (JVal.jobj (JObj.cons "pub" (JVal.jbuf [5]) JObj.nil))) :=
  ⟨keys_set_falsy_deletes_truthy_upserts [] "s1"
      [("pre-key", "7", JVal.jobj (JObj.cons "pub" (JVal.jbuf [5]) JObj.nil)),
        ("session", "x", JVal.jnull)]
      "session" "x" JVal.jnull (by simp [uniqKeys]) (by decide) (by decide),
    keys_set_falsy_deletes_truthy_upserts [] "s1"
      [("pre-key", "7", JVal.jobj (JObj.cons "pub" (JVal.jbuf [5]) JObj.nil)),
        ("session", "x", JVal.jnull)]
      "pre-key" "7" (JVal.jobj (JObj.cons "pub" (JVal.jbuf [5]) JObj.nil))
      (by simp [uniqKeys]) (by decide) (by decide)⟩

end WaCore
